import Mathlib

/-!
Verification development for the Conversation State & Workflow-Binding
Manager (Python sources under `src/ai-agent/src/core/`).

The Python code is shallowly embedded: dictionaries become association
lists, `datetime.now()` / `time.time()` become an explicit `Nat` clock
threaded through the state, and exceptions become `Except` values.
Every definition mirrors one Python function; the source file and
function are named in its doc comment.
-/

namespace LukePoc

/-! ## Association lists (model of Python `dict`)

A Python `dict` maps each key to at most one value.  We model it as an
association list: `lookupA` finds the first binding, `insertA` replaces
the first binding (or appends a fresh one, as dict assignment does), and
`eraseA` (`del d[k]`) removes every binding of the key, which on lists
reachable through `insertA` from dict-like states removes exactly one. -/

def lookupA {α : Type} : List (String × α) → String → Option α
  | [], _ => none
  | (k', v) :: rest, k => if k' = k then some v else lookupA rest k

def insertA {α : Type} : List (String × α) → String → α → List (String × α)
  | [], k, v => [(k, v)]
  | (k', v') :: rest, k, v =>
    if k' = k then (k, v) :: rest else (k', v') :: insertA rest k v

def eraseA {α : Type} : List (String × α) → String → List (String × α)
  | [], _ => []
  | (k', v') :: rest, k =>
    if k' = k then eraseA rest k else (k', v') :: eraseA rest k

theorem lookupA_insertA_self {α : Type} (l : List (String × α)) (k : String) (v : α) :
    lookupA (insertA l k v) k = some v := by
  induction l with
  | nil => simp [insertA, lookupA]
  | cons p rest ih =>
    by_cases h : p.1 = k
    · simp [insertA, h, lookupA]
    · simp [insertA, h, lookupA, ih]

theorem lookupA_insertA_ne {α : Type} (l : List (String × α)) (k k' : String) (v : α)
    (h : k ≠ k') : lookupA (insertA l k v) k' = lookupA l k' := by
  induction l with
  | nil => simp [insertA, lookupA, h]
  | cons p rest ih =>
    by_cases hp : p.1 = k
    · simp [insertA, hp, lookupA, h]
    · simp [insertA, hp, lookupA, ih]

theorem lookupA_eraseA_self {α : Type} (l : List (String × α)) (k : String) :
    lookupA (eraseA l k) k = none := by
  induction l with
  | nil => simp [eraseA, lookupA]
  | cons p rest ih =>
    by_cases hp : p.1 = k
    · simp [eraseA, hp, ih]
    · simp [eraseA, hp, lookupA, ih]

theorem lookupA_eraseA_ne {α : Type} (l : List (String × α)) (k k' : String)
    (h : k ≠ k') : lookupA (eraseA l k) k' = lookupA l k' := by
  induction l with
  | nil => simp [eraseA]
  | cons p rest ih =>
    by_cases hp : p.1 = k
    · have hne : ¬ p.1 = k' := fun hh => h (hp.symm.trans hh)
      simp [eraseA, hp, lookupA, ih, hne, h]
    · simp [eraseA, hp, lookupA, ih]

/-! ## Data model (`src/ai-agent/src/core/models.py`) -/

/-- `ConversationTurn` (models.py lines 65-77): a single conversation
turn.  `timestamp` is the model clock value at creation.  The optional
`workflow_id` field is never set by the code paths under study and is
omitted (its default is `None`). -/
structure Turn where
  user_message : String
  agent_response : String
  timestamp : Nat
  mcp_tools_used : List String
deriving DecidableEq, Repr

/-- `ChatBinding` (models.py lines 29-62).  `datetime` fields are model
clock values. -/
structure ChatBinding where
  conversation_id : String
  session_id : String
  created_at : Nat
  bound_workflow_id : Option String
  binding_locked_at : Option Nat
  last_activity : Nat
deriving DecidableEq, Repr

/-- `ChatBinding.is_bound` (models.py line 44): bound iff
`bound_workflow_id is not None`. -/
def ChatBinding.is_bound (b : ChatBinding) : Bool :=
  b.bound_workflow_id.isSome

/-- `ChatBinding.bind` (models.py lines 52-58): raises `ValueError`
naming the conversation id and the previously bound workflow id when
already bound; otherwise sets `bound_workflow_id`, `binding_locked_at`
and `last_activity`.  The `Except.error` carries the exact message
string of the Python f-string. -/
def ChatBinding.bind (b : ChatBinding) (workflow_id : String) (now : Nat) :
    Except String ChatBinding :=
  match b.bound_workflow_id with
  | some prev =>
    .error ("Chat " ++ b.conversation_id ++ " is already bound to " ++ prev)
  | none =>
    .ok { b with bound_workflow_id := some workflow_id,
                 binding_locked_at := some now,
                 last_activity := now }

/-! ## Chat binding manager (`src/ai-agent/src/core/chat_binding_manager.py`)

The manager's in-memory state is `self._bindings : Dict[str, ChatBinding]`,
modelled as an association list.  `_persist_binding` writes through to
disk and never changes the in-memory map; the on-disk effect is modelled
separately in the durable-store section below, so the in-memory
operations here return only the updated map. -/

/-- Python exception taxonomy used by `bind_workflow`: `KeyError` when no
binding exists, `ValueError` (from `ChatBinding.bind`) when already
bound. -/
inductive PyErr where
  | keyError (msg : String)
  | valueError (msg : String)
deriving DecidableEq, Repr

abbrev Bindings := List (String × ChatBinding)

/-- `ChatBindingManager.create_binding` (chat_binding_manager.py lines
47-81): idempotent; returns the existing binding unchanged when one
exists, otherwise inserts and persists a fresh unbound binding. -/
def create_binding (m : Bindings) (conversation_id session_id : String) (now : Nat) :
    ChatBinding × Bindings :=
  match lookupA m conversation_id with
  | some b => (b, m)
  | none =>
    let b : ChatBinding :=
      { conversation_id := conversation_id
        session_id := session_id
        created_at := now
        bound_workflow_id := none
        binding_locked_at := none
        last_activity := now }
    (b, insertA m conversation_id b)

/-- `ChatBindingManager.bind_workflow` (chat_binding_manager.py lines
83-114): `KeyError` when no binding exists; otherwise delegates to
`ChatBinding.bind`, re-raising its `ValueError` and leaving the map
unchanged on failure.  The second component is the map after the call
(the Python object is mutated in place on success). -/
def bind_workflow (m : Bindings) (conversation_id workflow_id : String) (now : Nat) :
    Except PyErr ChatBinding × Bindings :=
  match lookupA m conversation_id with
  | none =>
    (.error (.keyError ("No binding found for conversation: " ++ conversation_id)), m)
  | some b =>
    match b.bind workflow_id now with
    | .error msg => (.error (.valueError msg), m)
    | .ok b' => (.ok b', insertA m conversation_id b')

/-- `ChatBindingManager.get_binding` (lines 116-126). -/
def get_binding (m : Bindings) (conversation_id : String) : Option ChatBinding :=
  lookupA m conversation_id

/-- `ChatBindingManager.is_bound` (lines 128-139): `binding.is_bound()`
if present else `False`. -/
def manager_is_bound (m : Bindings) (conversation_id : String) : Bool :=
  match lookupA m conversation_id with
  | some b => b.is_bound
  | none => false

/-- `ChatBindingManager.get_bound_workflow` (lines 141-152):
`binding.bound_workflow_id` if present else `None`. -/
def get_bound_workflow (m : Bindings) (conversation_id : String) : Option String :=
  match lookupA m conversation_id with
  | some b => b.bound_workflow_id
  | none => none

/-! ## Configuration (`ConversationManager.__init__`, conversation_manager.py
lines 56-128, and `ConversationSummarizer.__init__`, conversation_summarizer.py
lines 26-48)

The manager constructs the summarizer from its own parameters, so one
record carries both.  `summary_threshold` is a Python float (default
`0.70`); we carry it as the exact rational `num/den`, and
`thresholdTurns` computes `int(max_length * summary_threshold)` by
natural floor division, which agrees with the Python float computation
at the configurations under study (e.g. `int(15 * 0.7) = 10 = 15*7/10`). -/
structure ConvConfig where
  max_length : Nat
  cache_ttl : Nat
  enable_persistence : Bool
  enable_summarization : Bool
  summary_threshold_num : Nat
  summary_threshold_den : Nat
  preserve_recent : Nat
  preserve_early : Nat
deriving Repr

/-- The constructor defaults: `max_length=15`, `cache_ttl=300.0`,
persistence and summarization enabled, `summary_threshold=0.70`,
`preserve_recent=5`, `preserve_early=2`. -/
def defaultConfig : ConvConfig :=
  { max_length := 15, cache_ttl := 300,
    enable_persistence := true, enable_summarization := true,
    summary_threshold_num := 7, summary_threshold_den := 10,
    preserve_recent := 5, preserve_early := 2 }

/-- `threshold_turns = int(self.max_length * self.summary_threshold)`
(conversation_summarizer.py line 60). -/
def thresholdTurns (cfg : ConvConfig) : Nat :=
  cfg.max_length * cfg.summary_threshold_num / cfg.summary_threshold_den

/-! ## Progressive summarizer (`src/ai-agent/src/core/conversation_summarizer.py`) -/

/-- `ConversationSummarizer.should_summarize` (lines 50-61):
`conversation_length >= threshold_turns`. -/
def should_summarize (cfg : ConvConfig) (conversation_length : Nat) : Bool :=
  decide (thresholdTurns cfg ≤ conversation_length)

/-- Python's `in` operator on strings: `needle in hay`.  `splitOn`
produces at least two parts exactly when the needle occurs (needles used
here are non-empty literals). -/
def containsSub (needle hay : String) : Bool :=
  decide (2 ≤ (hay.splitOn needle).length)

/-- Topic assigned to one turn by the keyword buckets of
`_extract_topics` (lines 149-186); `none` when the message matches no
bucket and has length ≤ 10. -/
def topicOf (t : Turn) : Option String :=
  let ml := t.user_message.toLower
  if containsSub "create" ml || containsSub "new" ml then
    some "Workflow creation discussion"
  else if containsSub "modify" ml || containsSub "change" ml then
    some "Workflow modification"
  else if containsSub "explain" ml || containsSub "what is" ml then
    some "Workflow explanation"
  else if containsSub "workflow" ml then
    some "Workflow-related question"
  else if 10 < t.user_message.length then
    some (t.user_message.take 50 ++ "...")
  else
    none

/-- Order-preserving first-occurrence deduplication (the `seen` set loop
at lines 178-186). -/
def dedupKeepFirst (seen : List String) : List String → List String
  | [] => []
  | x :: xs =>
    if x ∈ seen then dedupKeepFirst seen xs
    else x :: dedupKeepFirst (x :: seen) xs

/-- `ConversationSummarizer._extract_topics` (lines 149-186). -/
def extract_topics (turns : List Turn) : List String :=
  dedupKeepFirst [] (turns.filterMap topicOf)

/-- Python `sep.join(parts)`. -/
def joinSep (sep : String) : List String → String
  | [] => ""
  | [x] => x
  | x :: xs => x ++ sep ++ joinSep sep xs

/-- `ConversationSummarizer._simple_summarize` (lines 119-147). -/
def simple_summarize (turns : List Turn) : String :=
  if turns = [] then "No conversation history"
  else
    let topics := extract_topics turns
    let bullets := (topics.take 3).map (fun t => "- " ++ t)
    let extra :=
      if 3 < topics.length then ["- And " ++ toString (topics.length - 3) ++ " more topics..."]
      else []
    joinSep "\n"
      (("Discussed " ++ toString turns.length ++ " topics including:") :: (bullets ++ extra))

/-- The per-turn `User:`/`Agent:` lines shared by
`ConversationSummarizer._format_turns` (lines 188-203) and the context
construction loop of `ConversationManager.get_context_string` (lines
238-240). -/
def turnLines : List Turn → List String
  | [] => []
  | t :: ts =>
    ("User: " ++ t.user_message) :: ("Agent: " ++ t.agent_response) :: turnLines ts

/-- `ConversationSummarizer._format_turns` (lines 188-203). -/
def format_turns (turns : List Turn) : String :=
  joinSep "\n\n" (turnLines turns)

/-- An injected LLM summarization function; `none` output models the
function raising (line 96-99 falls back to `_simple_summarize`). -/
abbrev LlmFunc := List Turn → Option String

/-- `ConversationSummarizer.summarize_conversation` (lines 63-117).
Returns the `(summary_string, remaining_turns)` pair together with the
updated `_summaries` cache.  Python slices `turns[a:b]` are
`(drop a).take (b - a)`; `max(len - preserve_recent, early_cutoff)` is
`Nat.max` (truncated subtraction coincides with Python `max` against a
negative first argument since the cutoff is non-negative). -/
def summarize_conversation (cfg : ConvConfig) (conversation_id : String)
    (turns : List Turn) (llm_summarize_func : Option LlmFunc)
    (summaries : List (String × String)) :
    (String × List Turn) × List (String × String) :=
  if ¬ should_summarize cfg turns.length then (("", turns), summaries)
  else
    let early_cutoff := cfg.preserve_early
    let recent_start := Nat.max (turns.length - cfg.preserve_recent) early_cutoff
    let early_turns := turns.take early_cutoff
    let middle_turns := (turns.drop early_cutoff).take (recent_start - early_cutoff)
    let recent_turns := turns.drop recent_start
    let summary :=
      match llm_summarize_func with
      | some f =>
        if middle_turns ≠ [] then
          match f middle_turns with
          | some s => s
          | none => simple_summarize middle_turns
        else simple_summarize middle_turns
      | none => simple_summarize middle_turns
    let summaries' :=
      if middle_turns ≠ [] then insertA summaries conversation_id summary
      else summaries
    let early_context := format_turns early_turns
    let full_summary :=
      "[Early conversation context:]\n" ++ early_context ++
      "\n\n[Summary of " ++ toString middle_turns.length ++ " middle turns:]\n" ++
      summary ++ "\n\n[Recent conversation:]"
    ((full_summary, recent_turns), summaries')

/-! ## Conversation manager (`src/ai-agent/src/core/conversation_manager.py`)

State of a `ConversationManager` instance.  Persisted conversation
documents are modelled at the turn-list level in `store` (what
`ConversationPersistence.save_conversation` writes and
`load_conversation` reconstructs); the byte-level on-disk write pattern
is modelled separately in the durable-store section.  `now` is the model
clock read by `datetime.now()` / `time.time()`; no operation advances
it, callers do. -/
structure CachedContext where
  context_string : String
  turn_count : Nat
  cached_at : Nat
deriving DecidableEq, Repr

/-- `CachedContext.is_valid` (conversation_manager.py lines 20-33):
fresh (`now - cached_at < ttl`, truncated `Nat` subtraction agrees with
the Python float comparison since a non-positive age is always `< ttl`
for positive ttl) and current (`turn_count == current_turn_count`). -/
def CachedContext.is_valid (c : CachedContext) (current_turn_count : Nat)
    (ttl : Nat) (now : Nat) : Bool :=
  decide (now - c.cached_at < ttl) && decide (c.turn_count = current_turn_count)

structure ConvState where
  conversations : List (String × List Turn)
  created_at_map : List (String × Nat)
  context_cache : List (String × CachedContext)
  summaries : List (String × String)
  cache_hits : Nat
  cache_misses : Nat
  store : List (String × List Turn)
  now : Nat
deriving Repr

/-- The empty manager right after construction (with an empty storage
directory). -/
def initialState : ConvState :=
  { conversations := [], created_at_map := [], context_cache := [],
    summaries := [], cache_hits := 0, cache_misses := 0, store := [], now := 0 }

/-- Python's tail slice `l[-k:]` (conversation_manager.py line 158):
for `k = 0` the slice `[-0:]` is `[0:]`, the whole list. -/
def pyTailSlice {α : Type} (k : Nat) (l : List α) : List α :=
  if k = 0 then l else l.drop (l.length - k)

/-- `ConversationManager.add_turn` (lines 130-173): create an empty
in-memory log when absent (no hydration from disk), append the new
turn, trim with `[-max_length:]` when the length exceeds `max_length`,
invalidate the context cache entry, persist the trimmed log, and return
the new length. -/
def add_turn (cfg : ConvConfig) (s : ConvState) (conversation_id : String)
    (user_message agent_response : String) (mcp_tools_used : List String) :
    Nat × ConvState :=
  let (convs1, created1) :=
    match lookupA s.conversations conversation_id with
    | some _ => (s.conversations, s.created_at_map)
    | none =>
      (insertA s.conversations conversation_id [],
       insertA s.created_at_map conversation_id s.now)
  let turn : Turn :=
    { user_message := user_message, agent_response := agent_response,
      timestamp := s.now, mcp_tools_used := mcp_tools_used }
  let appended := ((lookupA convs1 conversation_id).getD []) ++ [turn]
  let trimmed :=
    if cfg.max_length < appended.length then pyTailSlice cfg.max_length appended
    else appended
  let store' :=
    if cfg.enable_persistence then insertA s.store conversation_id trimmed
    else s.store
  (trimmed.length,
   { s with conversations := insertA convs1 conversation_id trimmed,
            created_at_map := created1,
            context_cache := eraseA s.context_cache conversation_id,
            store := store' })

/-- `ConversationManager.get_conversation_history` (lines 175-193):
return the in-memory log when present; otherwise attempt to hydrate a
non-empty persisted log from the store (also recording `created_at`
from the first turn); otherwise return `[]`. -/
def get_conversation_history (cfg : ConvConfig) (s : ConvState)
    (conversation_id : String) : List Turn × ConvState :=
  match lookupA s.conversations conversation_id with
  | some ts => (ts, s)
  | none =>
    if cfg.enable_persistence then
      match lookupA s.store conversation_id with
      | some turns =>
        if turns ≠ [] then
          (turns,
           { s with conversations := insertA s.conversations conversation_id turns,
                    created_at_map :=
                      insertA s.created_at_map conversation_id
                        ((turns.head?.map Turn.timestamp).getD 0) })
        else ([], s)
      | none => ([], s)
    else ([], s)

/-- `ConversationManager.get_conversation_count` (lines 253-254). -/
def get_conversation_count (s : ConvState) (conversation_id : String) : Nat :=
  ((lookupA s.conversations conversation_id).getD []).length

/-- Context construction of `get_context_string` after the history is
fetched (lines 218-242): optional summarization (the manager passes
`llm_summarize_func=None`), then the `summary? + User/Agent` parts
joined by `"\n\n"`.  Returns the string and the summarizer's updated
`_summaries` cache. -/
def buildContext (cfg : ConvConfig) (conversation_id : String)
    (history : List Turn) (summaries : List (String × String)) :
    String × List (String × String) :=
  let res :=
    if cfg.enable_summarization && should_summarize cfg history.length then
      summarize_conversation cfg conversation_id history none summaries
    else (("", history), summaries)
  let context_parts :=
    (if res.1.1 ≠ "" then [res.1.1] else []) ++ turnLines res.1.2
  (joinSep "\n\n" context_parts, res.2)

/-- The cache-miss path of `get_context_string` (lines 211-251):
increment the miss counter, fetch (possibly hydrating) the history,
return `""` for an empty history without caching, otherwise build the
context, store it keyed by the pre-computed turn count and the current
time, and return it. -/
def getContextMiss (cfg : ConvConfig) (s : ConvState) (conversation_id : String)
    (current_turn_count : Nat) : String × ConvState :=
  let s1 := { s with cache_misses := s.cache_misses + 1 }
  let hist := get_conversation_history cfg s1 conversation_id
  if hist.1 = [] then ("", hist.2)
  else
    let bc := buildContext cfg conversation_id hist.1 hist.2.summaries
    (bc.1,
     { hist.2 with
         summaries := bc.2,
         context_cache :=
           insertA hist.2.context_cache conversation_id
             { context_string := bc.1, turn_count := current_turn_count,
               cached_at := hist.2.now } })

/-- `ConversationManager.get_context_string` (lines 195-251): return a
valid cached entry (hit) or rebuild (miss). -/
def get_context_string (cfg : ConvConfig) (s : ConvState)
    (conversation_id : String) : String × ConvState :=
  let current := get_conversation_count s conversation_id
  match lookupA s.context_cache conversation_id with
  | some cached =>
    if cached.is_valid current cfg.cache_ttl s.now then
      (cached.context_string, { s with cache_hits := s.cache_hits + 1 })
    else getContextMiss cfg s conversation_id current
  | none => getContextMiss cfg s conversation_id current

/-! ### Claims C1, C7, C9: binding ledger -/

/-- C1: for every conversation `c` already bound to workflow `wfA`, a
subsequent `bind(c, wfB)` fails with the already-bound `ValueError`
whose message names the conversation id and the previously bound
workflow id, and the manager state is unchanged: `boundWorkflow(c)` is
still `wfA` and the stored binding's fields are untouched. -/
theorem bind_already_bound_fails_state_unchanged
    (m : Bindings) (c wfA wfB : String) (b : ChatBinding) (now : Nat)
    (hb : lookupA m c = some b)
    (hid : b.conversation_id = c)
    (hbound : b.bound_workflow_id = some wfA) :
    (bind_workflow m c wfB now).1 =
      Except.error (PyErr.valueError ("Chat " ++ c ++ " is already bound to " ++ wfA)) ∧
    (bind_workflow m c wfB now).2 = m ∧
    get_bound_workflow (bind_workflow m c wfB now).2 c = some wfA ∧
    get_binding (bind_workflow m c wfB now).2 c = some b := by
  simp [bind_workflow, hb, ChatBinding.bind, hbound, hid, get_bound_workflow, get_binding]

/-- An already-bound binding for conversation `c1` in session `s1`. -/
def exBoundBinding : ChatBinding :=
  { conversation_id := "c1", session_id := "s1", created_at := 0,
    bound_workflow_id := some "wf_A", binding_locked_at := some 1, last_activity := 1 }

theorem bind_already_bound_fails_state_unchanged_witness :
    (lookupA [("c1", exBoundBinding)] "c1" = some exBoundBinding ∧
     exBoundBinding.conversation_id = "c1" ∧
     exBoundBinding.bound_workflow_id = some "wf_A") ∧
    ((bind_workflow [("c1", exBoundBinding)] "c1" "wf_B" 7).1 =
       Except.error (PyErr.valueError ("Chat " ++ "c1" ++ " is already bound to " ++ "wf_A")) ∧
     (bind_workflow [("c1", exBoundBinding)] "c1" "wf_B" 7).2 = [("c1", exBoundBinding)] ∧
     get_bound_workflow (bind_workflow [("c1", exBoundBinding)] "c1" "wf_B" 7).2 "c1" = some "wf_A" ∧
     get_binding (bind_workflow [("c1", exBoundBinding)] "c1" "wf_B" 7).2 "c1" = some exBoundBinding) :=
  ⟨⟨by decide, by decide, by decide⟩,
   bind_already_bound_fails_state_unchanged [("c1", exBoundBinding)] "c1" "wf_A" "wf_B"
     exBoundBinding 7 (by decide) (by decide) (by decide)⟩

/-- C7: `create_binding` is idempotent per conversation id: when a
binding already exists for the conversation it is returned unchanged
(all fields, including `session_id`, `created_at` and any
`bound_workflow_id`) and the manager state is untouched; no error is
possible (the function is total). -/
theorem create_binding_idempotent
    (m : Bindings) (cid sid : String) (now : Nat) (b : ChatBinding)
    (hb : lookupA m cid = some b) :
    create_binding m cid sid now = (b, m) := by
  simp [create_binding, hb]

theorem create_binding_idempotent_witness :
    lookupA [("c1", exBoundBinding)] "c1" = some exBoundBinding ∧
    create_binding [("c1", exBoundBinding)] "c1" "other_session" 99 =
      (exBoundBinding, [("c1", exBoundBinding)]) :=
  ⟨by decide,
   create_binding_idempotent [("c1", exBoundBinding)] "c1" "other_session" 99
     exBoundBinding (by decide)⟩

/-- C9: `bind` on a conversation with no binding record raises a
`KeyError` naming the conversation id — a condition distinct from the
already-bound `ValueError` — creates no binding, and leaves the manager
unchanged. -/
theorem bind_without_record_raises_keyerror
    (m : Bindings) (c wf : String) (now : Nat)
    (h : lookupA m c = none) :
    (bind_workflow m c wf now).1 =
      Except.error (PyErr.keyError ("No binding found for conversation: " ++ c)) ∧
    (bind_workflow m c wf now).2 = m ∧
    get_binding (bind_workflow m c wf now).2 c = none ∧
    ∀ msg, (bind_workflow m c wf now).1 ≠ Except.error (PyErr.valueError msg) := by
  refine ⟨by simp [bind_workflow, h], by simp [bind_workflow, h], ?_, ?_⟩
  · simp [bind_workflow, h, get_binding]
  · intro msg
    simp [bind_workflow, h]

theorem bind_without_record_raises_keyerror_witness :
    lookupA ([] : Bindings) "conv_x" = none ∧
    ((bind_workflow ([] : Bindings) "conv_x" "wf_1" 3).1 =
       Except.error (PyErr.keyError ("No binding found for conversation: " ++ "conv_x")) ∧
     (bind_workflow ([] : Bindings) "conv_x" "wf_1" 3).2 = [] ∧
     get_binding (bind_workflow ([] : Bindings) "conv_x" "wf_1" 3).2 "conv_x" = none ∧
     ∀ msg, (bind_workflow ([] : Bindings) "conv_x" "wf_1" 3).1 ≠
       Except.error (PyErr.valueError msg)) :=
  ⟨rfl, bind_without_record_raises_keyerror [] "conv_x" "wf_1" 3 rfl⟩

/-! ### Claim C5: summarization threshold -/

theorem string_append_ne_empty (s t : String) (hs : s.length ≠ 0) : s ++ t ≠ "" := by
  intro h
  have h2 := congrArg String.length h
  rw [String.length_append] at h2
  simp only [String.length_empty] at h2
  omega

/-- C5: `shouldSummarize(n)` is true iff `n ≥ floor(max_turns *
threshold)`; with the defaults (`max_turns=15`, `threshold=0.70`) the
trigger is at 10 turns, a 9-turn conversation is returned unchanged
with an empty summary, and any conversation of 10 or more turns yields
a non-empty summary plus exactly `preserve_recent = 5` verbatim tail
turns. -/
theorem summarization_threshold_behavior :
    (∀ cfg n, should_summarize cfg n = true ↔ thresholdTurns cfg ≤ n) ∧
    thresholdTurns defaultConfig = 10 ∧
    (∀ cid turns llm summaries, turns.length = 9 →
      summarize_conversation defaultConfig cid turns llm summaries =
        (("", turns), summaries)) ∧
    (∀ cid turns (llm : Option LlmFunc) summaries, 10 ≤ turns.length →
      ∃ fs, (summarize_conversation defaultConfig cid turns llm summaries).1 =
          (fs, turns.drop (turns.length - 5)) ∧
        fs ≠ "" ∧ (turns.drop (turns.length - 5)).length = 5) := by
  refine ⟨fun cfg n => by simp [should_summarize], by decide, ?_, ?_⟩
  · intro cid turns llm summaries h9
    have hs : ¬ should_summarize defaultConfig turns.length = true := by
      simp [should_summarize, thresholdTurns, defaultConfig, h9]
    simp [summarize_conversation, hs]
  · intro cid turns llm summaries h10
    have hs : should_summarize defaultConfig turns.length = true := by
      simp [should_summarize, thresholdTurns, defaultConfig]
      omega
    have hmax : Nat.max (turns.length - defaultConfig.preserve_recent)
        defaultConfig.preserve_early = turns.length - 5 :=
      Nat.max_eq_left (by simp [defaultConfig]; omega)
    have hmax2 : Nat.max (turns.length - 5) 2 = turns.length - 5 :=
      Nat.max_eq_left (by omega)
    refine ⟨(summarize_conversation defaultConfig cid turns llm summaries).1.1, ?_, ?_, ?_⟩
    · have h2 : (summarize_conversation defaultConfig cid turns llm summaries).1.2 =
          turns.drop (turns.length - 5) := by
        simp only [summarize_conversation, hs]
        simp [hmax, hmax2, defaultConfig]
      exact Prod.ext rfl h2
    · have h1 : ∃ rest,
          (summarize_conversation defaultConfig cid turns llm summaries).1.1 =
            "[Early conversation context:]\n" ++ rest := by
        simp only [summarize_conversation, hs]
        simp only [not_true, if_false, String.append_assoc]
        exact ⟨_, rfl⟩
      obtain ⟨rest, hrest⟩ := h1
      rw [hrest]
      exact string_append_ne_empty _ _ (by decide)
    · rw [List.length_drop]
      omega

def exTurns9 : List Turn := List.replicate 9 ⟨"question", "answer", 0, []⟩

def exTurns10 : List Turn := List.replicate 10 ⟨"question", "answer", 0, []⟩

theorem summarization_threshold_behavior_witness :
    (exTurns9.length = 9 ∧
     summarize_conversation defaultConfig "c" exTurns9 none [] = (("", exTurns9), [])) ∧
    (10 ≤ exTurns10.length ∧
     ∃ fs, (summarize_conversation defaultConfig "c" exTurns10 none []).1 =
         (fs, exTurns10.drop (exTurns10.length - 5)) ∧
       fs ≠ "" ∧ (exTurns10.drop (exTurns10.length - 5)).length = 5) :=
  ⟨⟨by decide,
    summarization_threshold_behavior.2.2.1 "c" exTurns9 none [] (by decide)⟩,
   ⟨by decide,
    summarization_threshold_behavior.2.2.2 "c" exTurns10 none [] (by decide)⟩⟩

/-! ### Claim C2: no hydration on append (corrected) -/

/-- A manager state as seen right after a process restart: the in-memory
maps are empty but the store still holds a two-turn conversation
document for `"c"`. -/
def exRestartState : ConvState :=
  { initialState with
      store := [("c", [⟨"u1", "a1", 0, []⟩, ⟨"u2", "a2", 0, []⟩])] }

/-- C2 counterexample: with two turns persisted for `"c"` and nothing in
memory, the claim predicts `appendTurn` hydrates first and returns
`min(2+1, 15) = 3`; the code returns `1` and persists a document holding
only the new turn (`add_turn` never consults the store). -/
theorem add_turn_hydration_counterexample :
    (add_turn defaultConfig exRestartState "c" "u3" "a3" []).1 = 1 ∧
    (add_turn defaultConfig exRestartState "c" "u3" "a3" []).1 ≠
      min (2 + 1) defaultConfig.max_length ∧
    lookupA (add_turn defaultConfig exRestartState "c" "u3" "a3" []).2.store "c" =
      some [⟨"u3", "a3", 0, []⟩] := by
  refine ⟨by decide, by decide, by decide⟩

/-- C2 amended: `add_turn` does not hydrate from the Durable Store.  On
a conversation absent from the in-memory map it initializes an empty
log, appends the single new turn, returns `1`, and (when persistence is
enabled) overwrites the persisted document with a log holding only the
new turn; prior persisted history is only resumed by the read path
(`get_conversation_history`). -/
theorem add_turn_absent_starts_fresh
    (cfg : ConvConfig) (s : ConvState) (cid u a : String) (tl : List String)
    (h : lookupA s.conversations cid = none) :
    (add_turn cfg s cid u a tl).1 = 1 ∧
    lookupA (add_turn cfg s cid u a tl).2.conversations cid =
      some [⟨u, a, s.now, tl⟩] ∧
    (cfg.enable_persistence = true →
      lookupA (add_turn cfg s cid u a tl).2.store cid = some [⟨u, a, s.now, tl⟩]) := by
  have hconv : lookupA (insertA s.conversations cid ([] : List Turn)) cid = some [] :=
    lookupA_insertA_self _ _ _
  have htrim : ∀ t : Turn,
      (if cfg.max_length = 0 then pyTailSlice cfg.max_length [t] else [t]) = [t] := by
    intro t
    by_cases hm : cfg.max_length = 0 <;> simp [hm, pyTailSlice]
  refine ⟨?_, ?_, ?_⟩
  · simp [add_turn, h, hconv, htrim]
  · simp [add_turn, h, hconv, htrim, lookupA_insertA_self]
  · intro hp
    simp [add_turn, h, hconv, htrim, hp, lookupA_insertA_self]

theorem add_turn_absent_starts_fresh_witness :
    lookupA exRestartState.conversations "c" = none ∧
    ((add_turn defaultConfig exRestartState "c" "u3" "a3" []).1 = 1 ∧
     lookupA (add_turn defaultConfig exRestartState "c" "u3" "a3" []).2.conversations "c" =
       some [⟨"u3", "a3", exRestartState.now, []⟩] ∧
     (defaultConfig.enable_persistence = true →
       lookupA (add_turn defaultConfig exRestartState "c" "u3" "a3" []).2.store "c" =
         some [⟨"u3", "a3", exRestartState.now, []⟩])) :=
  ⟨rfl, add_turn_absent_starts_fresh defaultConfig exRestartState "c" "u3" "a3" [] rfl⟩

/-! ### Claim C10: empty conversation context -/

/-- C10: for a conversation with no turns in memory and none loadable
from the store (and no cache entry, as for any never-populated
conversation), `get_context_string` returns `""`, increments the miss
counter, leaves the hit counter alone, and stores no cache entry — so a
repeated call is again a miss and the hit counter is never incremented. -/
theorem get_context_empty_conversation
    (cfg : ConvConfig) (s : ConvState) (cid : String)
    (hconv : lookupA s.conversations cid = none)
    (hstore : lookupA s.store cid = none)
    (hcache : lookupA s.context_cache cid = none) :
    (get_context_string cfg s cid).1 = "" ∧
    (get_context_string cfg s cid).2.cache_misses = s.cache_misses + 1 ∧
    (get_context_string cfg s cid).2.cache_hits = s.cache_hits ∧
    lookupA (get_context_string cfg s cid).2.context_cache cid = none ∧
    (get_context_string cfg (get_context_string cfg s cid).2 cid).1 = "" ∧
    (get_context_string cfg (get_context_string cfg s cid).2 cid).2.cache_misses =
      s.cache_misses + 2 ∧
    (get_context_string cfg (get_context_string cfg s cid).2 cid).2.cache_hits =
      s.cache_hits := by
  have key : ∀ s' : ConvState, lookupA s'.conversations cid = none →
      lookupA s'.store cid = none → lookupA s'.context_cache cid = none →
      get_context_string cfg s' cid =
        ("", { s' with cache_misses := s'.cache_misses + 1 }) := by
    intro s' h1 h2 h3
    by_cases hp : cfg.enable_persistence <;>
      simp [get_context_string, getContextMiss, get_conversation_history,
            get_conversation_count, h1, h2, h3, hp]
  have k1 := key s hconv hstore hcache
  have k2 := key { s with cache_misses := s.cache_misses + 1 } hconv hstore hcache
  simp [k1, k2, hcache]

theorem get_context_empty_conversation_witness :
    (lookupA initialState.conversations "c" = none ∧
     lookupA initialState.store "c" = none ∧
     lookupA initialState.context_cache "c" = none) ∧
    ((get_context_string defaultConfig initialState "c").1 = "" ∧
     (get_context_string defaultConfig initialState "c").2.cache_misses =
       initialState.cache_misses + 1 ∧
     (get_context_string defaultConfig initialState "c").2.cache_hits =
       initialState.cache_hits ∧
     lookupA (get_context_string defaultConfig initialState "c").2.context_cache "c" =
       none ∧
     (get_context_string defaultConfig
        (get_context_string defaultConfig initialState "c").2 "c").1 = "" ∧
     (get_context_string defaultConfig
        (get_context_string defaultConfig initialState "c").2 "c").2.cache_misses =
       initialState.cache_misses + 2 ∧
     (get_context_string defaultConfig
        (get_context_string defaultConfig initialState "c").2 "c").2.cache_hits =
       initialState.cache_hits) :=
  ⟨⟨rfl, rfl, rfl⟩,
   get_context_empty_conversation defaultConfig initialState "c" rfl rfl rfl⟩

/-! ### Claim C3: turn log bound -/

/-- One message to append: `(user_message, agent_response, mcp_tools_used)`. -/
abbrev Msg := String × String × List String

/-- The turn `add_turn` builds from a message at clock value `now`. -/
def mkTurn (now : Nat) (m : Msg) : Turn :=
  { user_message := m.1, agent_response := m.2.1, timestamp := now,
    mcp_tools_used := m.2.2 }

/-- A sequence of `add_turn` calls on one conversation. -/
def addTurns (cfg : ConvConfig) : ConvState → String → List Msg → ConvState
  | s, _, [] => s
  | s, cid, m :: rest =>
    addTurns cfg (add_turn cfg s cid m.1 m.2.1 m.2.2).2 cid rest

/-- The last `k` elements of a list (`l[-k:]` for `k ≥ 1`). -/
def lastN {α : Type} (k : Nat) (l : List α) : List α :=
  l.drop (l.length - k)

theorem lastN_of_le {α : Type} (k : Nat) (l : List α) (h : l.length ≤ k) :
    lastN k l = l := by
  simp [lastN, Nat.sub_eq_zero_of_le h]

theorem lastN_length {α : Type} (k : Nat) (l : List α) :
    (lastN k l).length = min l.length k := by
  simp [lastN]
  omega

theorem lastN_append_right {α : Type} (k : Nat) (pre x : List α)
    (h : k ≤ x.length) : lastN k (pre ++ x) = lastN k x := by
  simp only [lastN, List.length_append]
  have h2 : pre.length + x.length - k = pre.length + (x.length - k) := by omega
  rw [h2, List.drop_append]

theorem lastN_lastN_append {α : Type} (k : Nat) (l m : List α) :
    lastN k (lastN k l ++ m) = lastN k (l ++ m) := by
  by_cases h : k ≤ l.length
  · have hx : k ≤ (lastN k l ++ m).length := by
      rw [List.length_append, lastN_length]
      omega
    have hdecomp : l.take (l.length - k) ++ lastN k l = l :=
      List.take_append_drop _ l
    symm
    calc lastN k (l ++ m)
        = lastN k ((l.take (l.length - k) ++ lastN k l) ++ m) := by rw [hdecomp]
      _ = lastN k (l.take (l.length - k) ++ (lastN k l ++ m)) := by
          rw [List.append_assoc]
      _ = lastN k (lastN k l ++ m) := lastN_append_right _ _ _ hx
  · rw [lastN_of_le k l (by omega)]

/-- The trimmed log `add_turn` stores when the conversation already
holds `ts` (conversation_manager.py lines 154-158). -/
def pyTrim (k : Nat) (l : List Turn) : List Turn :=
  if k < l.length then pyTailSlice k l else l

theorem pyTrim_eq_lastN (k : Nat) (l : List Turn) (hk : 1 ≤ k) :
    pyTrim k l = lastN k l := by
  by_cases h : k < l.length
  · have hk0 : ¬ k = 0 := by omega
    simp [pyTrim, pyTailSlice, h, hk0, lastN]
  · rw [pyTrim, if_neg h, lastN_of_le k l (by omega)]

theorem pyTrim_length_le (k : Nat) (l : List Turn) (hk : 1 ≤ k)
    (h : l.length ≤ k + 1) : (pyTrim k l).length ≤ k := by
  rw [pyTrim_eq_lastN k l hk, lastN_length]
  omega

theorem add_turn_now (cfg : ConvConfig) (s : ConvState) (cid u a : String)
    (tl : List String) : (add_turn cfg s cid u a tl).2.now = s.now := by
  simp only [add_turn]

theorem add_turn_conv_mem (cfg : ConvConfig) (s : ConvState) (cid u a : String)
    (tl : List String) (ts : List Turn)
    (h : lookupA s.conversations cid = some ts) :
    lookupA (add_turn cfg s cid u a tl).2.conversations cid =
      some (pyTrim cfg.max_length (ts ++ [⟨u, a, s.now, tl⟩])) := by
  simp [add_turn, h, lookupA_insertA_self, pyTrim]

theorem addTurns_mem (cfg : ConvConfig) (cid : String)
    (hk : 1 ≤ cfg.max_length) :
    ∀ (msgs : List Msg) (s : ConvState) (ts : List Turn),
      lookupA s.conversations cid = some ts → ts.length ≤ cfg.max_length →
      (addTurns cfg s cid msgs).now = s.now ∧
      lookupA (addTurns cfg s cid msgs).conversations cid =
        some (lastN cfg.max_length (ts ++ msgs.map (mkTurn s.now))) := by
  intro msgs
  induction msgs with
  | nil =>
    intro s ts h hlen
    refine ⟨rfl, ?_⟩
    rw [addTurns, h, List.map_nil, List.append_nil, lastN_of_le _ _ hlen]
  | cons m ms ih =>
    intro s ts h hlen
    have hstep := add_turn_conv_mem cfg s cid m.1 m.2.1 m.2.2 ts h
    have hnow := add_turn_now cfg s cid m.1 m.2.1 m.2.2
    have hlen' : (pyTrim cfg.max_length (ts ++ [⟨m.1, m.2.1, s.now, m.2.2⟩])).length ≤
        cfg.max_length := by
      apply pyTrim_length_le _ _ hk
      rw [List.length_append]
      simpa using hlen
    obtain ⟨hn, hc⟩ := ih (add_turn cfg s cid m.1 m.2.1 m.2.2).2 _ hstep hlen'
    rw [addTurns]
    refine ⟨hn.trans hnow, ?_⟩
    rw [hc, hnow, pyTrim_eq_lastN _ _ hk, lastN_lastN_append, List.map_cons,
        List.append_assoc]
    rfl

/-- C3 counterexample: the claim quantifies over every `max_turns = K`,
but with `K = 0` the Python trim `lst[-0:]` is `lst[0:]`, the whole
list, so after one append the log has length `1`, not `min(1, 0) = 0`. -/
def zeroLenConfig : ConvConfig := { defaultConfig with max_length := 0 }

theorem turn_log_bound_counterexample :
    (add_turn zeroLenConfig initialState "c" "m0" "r0" []).1 = 1 ∧
    (add_turn zeroLenConfig initialState "c" "m0" "r0" []).1 ≠
      min 1 zeroLenConfig.max_length := by
  refine ⟨by decide, by decide⟩

/-- C3 amended (restricted to `max_turns = K ≥ 1`; for `K = 0` the
Python slice `[-0:]` keeps the whole list): after appending the
messages `msgs` to a fresh conversation, the log is exactly the most
recent `min(N, K)` turns in append order (the oldest dropped first),
i.e. the image of `msgs.drop (N - K)`, and its length is `min N K`.
With `N = 20`, `K = 15` the first retained user message is the 6th
appended one (index 5), an instance of the `drop` equation. -/
theorem turn_log_bound_amended (cfg : ConvConfig) (s : ConvState) (cid : String)
    (msgs : List Msg) (hk : 1 ≤ cfg.max_length)
    (h : lookupA s.conversations cid = none) :
    ((lookupA (addTurns cfg s cid msgs).conversations cid).getD []) =
      (msgs.map (mkTurn s.now)).drop (msgs.length - cfg.max_length) ∧
    ((lookupA (addTurns cfg s cid msgs).conversations cid).getD []).length =
      min msgs.length cfg.max_length := by
  have main : ((lookupA (addTurns cfg s cid msgs).conversations cid).getD []) =
      (msgs.map (mkTurn s.now)).drop (msgs.length - cfg.max_length) := by
    cases msgs with
    | nil => simp [addTurns, h]
    | cons m ms =>
      have hconv : lookupA (insertA s.conversations cid ([] : List Turn)) cid =
          some [] := lookupA_insertA_self _ _ _
      have hstep : lookupA (add_turn cfg s cid m.1 m.2.1 m.2.2).2.conversations cid =
          some [mkTurn s.now m] := by
        have h0 : ¬ cfg.max_length = 0 := by omega
        simp [add_turn, h, hconv, lookupA_insertA_self, h0, mkTurn, pyTailSlice]
      have hnow := add_turn_now cfg s cid m.1 m.2.1 m.2.2
      obtain ⟨hn, hc⟩ := addTurns_mem cfg cid hk ms
        (add_turn cfg s cid m.1 m.2.1 m.2.2).2 [mkTurn s.now m] hstep (by simp; omega)
      rw [addTurns, hc, hnow]
      simp only [Option.getD_some]
      rw [show ([mkTurn s.now m] ++ ms.map (mkTurn s.now)) =
            ((m :: ms).map (mkTurn s.now)) by simp]
      rw [lastN]
      simp
  refine ⟨main, ?_⟩
  rw [main, List.length_drop, List.length_map]
  omega

/-- Twenty numbered messages. -/
def exMsgs20 : List Msg :=
  (List.range 20).map (fun i => ("m" ++ toString i, "r" ++ toString i, []))

theorem turn_log_bound_amended_witness :
    (1 ≤ defaultConfig.max_length ∧
     lookupA initialState.conversations "c" = none) ∧
    (((lookupA (addTurns defaultConfig initialState "c" exMsgs20).conversations
        "c").getD []) =
      (exMsgs20.map (mkTurn initialState.now)).drop
        (exMsgs20.length - defaultConfig.max_length) ∧
     ((lookupA (addTurns defaultConfig initialState "c" exMsgs20).conversations
        "c").getD []).length = min exMsgs20.length defaultConfig.max_length) ∧
    ((lookupA (addTurns defaultConfig initialState "c" exMsgs20).conversations
        "c").getD []).head?.map Turn.user_message = some "m5" :=
  ⟨⟨by decide, rfl⟩,
   turn_log_bound_amended defaultConfig initialState "c" exMsgs20 (by decide) rfl,
   by decide⟩

/-! ### Claim C6: atomic persistence

The on-disk layer: a filesystem is a map from filename to file content
(both strings; paths are relative to the one storage directory every
writer uses, so the directory prefix is dropped).  Each of the three
persist functions follows the same sequence: write the full serialized
document to a temp file in the storage directory, then `os.replace` it
onto the final name.  A crash can interrupt after any prefix of that
sequence; `CrashPoint` enumerates the intermediate states, with
`duringTempWrite w` standing for an arbitrary partial content `w` left
in the temp file. -/

abbrev FS := List (String × String)

/-- The id sanitization shared by `_get_conversation_path`
(conversation_persistence.py line 53), `_get_binding_path`
(chat_binding_manager.py line 236) and `_get_session_path`
(session_manager.py line 165): keep alphanumerics, `-` and `_`,
replace everything else by `_`. -/
def sanitizeId (s : String) : String :=
  String.mk (s.data.map (fun c => if c.isAlphanum || c = '-' || c = '_' then c else '_'))

/-- A JSON string literal; `json.dump`'s character escaping is abstracted
(the atomicity property does not depend on the rendering). -/
def jsonStr (s : String) : String := "\"" ++ s ++ "\""

def jsonOptStr : Option String → String
  | some s => jsonStr s
  | none => "null"

/-- One turn as serialized by `save_conversation`
(conversation_persistence.py lines 75-83). -/
def turnJson (t : Turn) : String :=
  "\x7b\"user_message\": " ++ jsonStr t.user_message ++
  ", \"agent_response\": " ++ jsonStr t.agent_response ++
  ", \"timestamp\": " ++ jsonStr (toString t.timestamp) ++
  ", \"mcp_tools_used\": [" ++ joinSep ", " (t.mcp_tools_used.map jsonStr) ++
  "]\x7d"

/-- The conversation document of `save_conversation` (lines 85-93);
`created_at` falls back to `now` when absent. -/
def serialize_conversation (cid : String) (turns : List Turn)
    (created_at : Option Nat) (now : Nat) : String :=
  "\x7b\"conversation_id\": " ++ jsonStr cid ++
  ", \"turns\": [" ++ joinSep ", " (turns.map turnJson) ++
  "], \"created_at\": " ++ jsonStr (toString (created_at.getD now)) ++
  ", \"updated_at\": " ++ jsonStr (toString now) ++
  ", \"turn_count\": " ++ toString turns.length ++ "\x7d"

/-- The binding document of `_persist_binding`
(chat_binding_manager.py lines 250-257). -/
def bindingJson (b : ChatBinding) : String :=
  "\x7b\"conversation_id\": " ++ jsonStr b.conversation_id ++
  ", \"session_id\": " ++ jsonStr b.session_id ++
  ", \"created_at\": " ++ jsonStr (toString b.created_at) ++
  ", \"bound_workflow_id\": " ++ jsonOptStr b.bound_workflow_id ++
  ", \"binding_locked_at\": " ++ jsonOptStr (b.binding_locked_at.map toString) ++
  ", \"last_activity\": " ++ jsonStr (toString b.last_activity) ++ "\x7d"

/-- `Session` (models.py lines 10-26); `metadata` is a string-valued
dict in every code path under study. -/
structure Session where
  session_id : String
  created_at : Nat
  last_activity : Nat
  user_identifier : String
  metadata : List (String × String)
deriving DecidableEq, Repr

/-- The session document of `_persist_session`
(session_manager.py lines 179-185). -/
def sessionJson (s : Session) : String :=
  "\x7b\"session_id\": " ++ jsonStr s.session_id ++
  ", \"created_at\": " ++ jsonStr (toString s.created_at) ++
  ", \"last_activity\": " ++ jsonStr (toString s.last_activity) ++
  ", \"user_identifier\": " ++ jsonStr s.user_identifier ++
  ", \"metadata\": \x7b" ++
  joinSep ", " (s.metadata.map (fun p => jsonStr p.1 ++ ": " ++ jsonStr p.2)) ++
  "\x7d\x7d"

/-- Final file name: sanitized key + `.json` (all three writers). -/
def conversationPath (cid : String) : String := sanitizeId cid ++ ".json"

def bindingPath (cid : String) : String := sanitizeId cid ++ ".json"

def sessionPath (sid : String) : String := sanitizeId sid ++ ".json"

/-- Temp name of `save_conversation`: `tempfile.mkstemp` with
`prefix=".tmp_{safe_id}_"` and `suffix=".json"` (lines 97-103); `rnd`
is the random part `mkstemp` chooses. -/
def conversationTmpPath (cid rnd : String) : String :=
  ".tmp_" ++ sanitizeId cid ++ "_" ++ rnd ++ ".json"

/-- Temp name of `_persist_binding` / `_persist_session`:
`tempfile.NamedTemporaryFile` with `suffix=".tmp"` in the storage
directory; `rnd` is the random stem. -/
def namedTmpPath (rnd : String) : String := rnd ++ ".tmp"

/-- The intermediate filesystem states of one temp-file + rename write. -/
inductive CrashPoint where
  | beforeWrite
  | duringTempWrite (written : String)
  | afterTempWrite
  | afterRename
deriving DecidableEq, Repr

/-- State of the filesystem when the write crashed at `cp`:
nothing yet / a partially written temp file / a fully written temp
file / after the atomic `os.replace` (which removes the temp name and
installs the content under the target name in one step). -/
def atomicPutState (fs : FS) (tmp target content : String) : CrashPoint → FS
  | .beforeWrite => fs
  | .duringTempWrite w => insertA fs tmp w
  | .afterTempWrite => insertA fs tmp content
  | .afterRename => insertA (eraseA fs tmp) target content

/-- `ConversationPersistence.save_conversation` (lines 56-123)
interrupted at `cp`. -/
def save_conversation_at (fs : FS) (cid : String) (turns : List Turn)
    (created_at : Option Nat) (now : Nat) (rnd : String) (cp : CrashPoint) : FS :=
  atomicPutState fs (conversationTmpPath cid rnd) (conversationPath cid)
    (serialize_conversation cid turns created_at now) cp

/-- `ChatBindingManager._persist_binding` (lines 239-277) interrupted
at `cp`. -/
def persist_binding_at (fs : FS) (b : ChatBinding) (rnd : String) (cp : CrashPoint) : FS :=
  atomicPutState fs (namedTmpPath rnd) (bindingPath b.conversation_id) (bindingJson b) cp

/-- `SessionManager._persist_session` (lines 168-205) interrupted at
`cp`. -/
def persist_session_at (fs : FS) (sess : Session) (rnd : String) (cp : CrashPoint) : FS :=
  atomicPutState fs (namedTmpPath rnd) (sessionPath sess.session_id) (sessionJson sess) cp

theorem atomicPutState_target (fs : FS) (tmp target content : String)
    (h : tmp ≠ target) (cp : CrashPoint) :
    lookupA (atomicPutState fs tmp target content cp) target = lookupA fs target ∨
    lookupA (atomicPutState fs tmp target content cp) target = some content := by
  cases cp with
  | beforeWrite => exact .inl rfl
  | duringTempWrite w => exact .inl (lookupA_insertA_ne _ _ _ _ h)
  | afterTempWrite => exact .inl (lookupA_insertA_ne _ _ _ _ h)
  | afterRename => exact .inr (lookupA_insertA_self _ _ _)

theorem conversationTmpPath_ne (cid rnd : String) :
    conversationTmpPath cid rnd ≠ conversationPath cid := by
  intro h
  have h2 := congrArg String.length h
  simp only [conversationTmpPath, conversationPath, String.length_append] at h2
  have e1 : (".tmp_" : String).length = 5 := rfl
  have e2 : ("_" : String).length = 1 := rfl
  have e3 : (".json" : String).length = 5 := rfl
  omega

theorem namedTmpPath_ne_json (rnd b : String) : namedTmpPath rnd ≠ b ++ ".json" := by
  intro h
  have hd := congrArg String.data h
  rw [namedTmpPath] at hd
  rw [String.data_append, String.data_append] at hd
  have h3 := congrArg List.getLast? hd
  rw [List.getLast?_append_of_ne_nil _ (by decide),
      List.getLast?_append_of_ne_nil _ (by decide)] at h3
  exact absurd h3 (by decide)

/-- C6: every persist (conversation turns, binding, session) writes the
full document to a temp file and atomically renames it onto the final
name, so at every crash point the final name holds either its prior
content or the complete new document — never a partial write. -/
theorem atomic_persistence_never_partial :
    (∀ (fs : FS) (cid : String) (turns : List Turn) (created_at : Option Nat)
       (now : Nat) (rnd : String) (cp : CrashPoint),
      lookupA (save_conversation_at fs cid turns created_at now rnd cp)
          (conversationPath cid) = lookupA fs (conversationPath cid) ∨
      lookupA (save_conversation_at fs cid turns created_at now rnd cp)
          (conversationPath cid) = some (serialize_conversation cid turns created_at now)) ∧
    (∀ (fs : FS) (b : ChatBinding) (rnd : String) (cp : CrashPoint),
      lookupA (persist_binding_at fs b rnd cp) (bindingPath b.conversation_id) =
        lookupA fs (bindingPath b.conversation_id) ∨
      lookupA (persist_binding_at fs b rnd cp) (bindingPath b.conversation_id) =
        some (bindingJson b)) ∧
    (∀ (fs : FS) (sess : Session) (rnd : String) (cp : CrashPoint),
      lookupA (persist_session_at fs sess rnd cp) (sessionPath sess.session_id) =
        lookupA fs (sessionPath sess.session_id) ∨
      lookupA (persist_session_at fs sess rnd cp) (sessionPath sess.session_id) =
        some (sessionJson sess)) := by
  refine ⟨?_, ?_, ?_⟩
  · intro fs cid turns created_at now rnd cp
    exact atomicPutState_target fs _ _ _ (conversationTmpPath_ne cid rnd) cp
  · intro fs b rnd cp
    exact atomicPutState_target fs _ _ _ (namedTmpPath_ne_json rnd _) cp
  · intro fs sess rnd cp
    exact atomicPutState_target fs _ _ _ (namedTmpPath_ne_json rnd _) cp

/-! ### Claim C4: context cache coherency -/

theorem joinSep_append_pair (sep x y : String) (xs : List String) :
    ∃ p, joinSep sep (xs ++ [x, y]) = p ++ (x ++ sep ++ y) := by
  induction xs with
  | nil =>
    refine ⟨"", ?_⟩
    show joinSep sep [x, y] = "" ++ (x ++ sep ++ y)
    simp [joinSep]
  | cons z zs ih =>
    obtain ⟨p, hp⟩ := ih
    cases hzs : zs ++ [x, y] with
    | nil => exact absurd hzs (by simp)
    | cons w rest =>
      refine ⟨z ++ sep ++ p, ?_⟩
      have hstep : joinSep sep ((z :: zs) ++ [x, y]) =
          z ++ sep ++ joinSep sep (zs ++ [x, y]) := by
        rw [List.cons_append, hzs]
        rfl
      rw [hstep, hp]
      simp [String.append_assoc]

theorem turnLines_append (l : List Turn) (t : Turn) :
    turnLines (l ++ [t]) =
      turnLines l ++ ["User: " ++ t.user_message, "Agent: " ++ t.agent_response] := by
  induction l with
  | nil => rfl
  | cons x xs ih => simp [turnLines, ih]

theorem summarize_fst_indep (cfg : ConvConfig) (cid : String) (turns : List Turn)
    (llm : Option LlmFunc) (sm sm' : List (String × String)) :
    (summarize_conversation cfg cid turns llm sm).1 =
      (summarize_conversation cfg cid turns llm sm').1 := by
  simp only [summarize_conversation]
  split <;> rfl

/-- The context string `get_context_string` builds for a given history
(independent of the summarizer's `_summaries` cache). -/
def ctxOf (cfg : ConvConfig) (cid : String) (history : List Turn) : String :=
  (buildContext cfg cid history []).1

theorem buildContext_fst (cfg : ConvConfig) (cid : String) (history : List Turn)
    (sm : List (String × String)) :
    (buildContext cfg cid history sm).1 = ctxOf cfg cid history := by
  unfold ctxOf buildContext
  by_cases hc : (cfg.enable_summarization && should_summarize cfg history.length) = true
  · rw [if_pos hc, if_pos hc]
    simp only [summarize_fst_indep cfg cid history none sm []]
  · rw [if_neg hc, if_neg hc]

theorem pyTrim_append_last (k : Nat) (ts : List Turn) (t : Turn) :
    ∃ g, pyTrim k (ts ++ [t]) = g ++ [t] := by
  by_cases h1 : k < (ts ++ [t]).length
  · by_cases h0 : k = 0
    · exact ⟨ts, by simp [pyTrim, pyTailSlice, h1, h0]⟩
    · refine ⟨ts.drop ((ts ++ [t]).length - k), ?_⟩
      have hle : (ts ++ [t]).length - k ≤ ts.length := by
        rw [List.length_append]
        simp only [List.length_cons, List.length_nil]
        omega
      unfold pyTrim pyTailSlice
      rw [if_pos h1, if_neg h0]
      exact List.drop_append_of_le_length hle
  · exact ⟨ts, by unfold pyTrim; rw [if_neg h1]⟩

theorem pyTrim_ne_nil (k : Nat) (l : List Turn) (h : l ≠ []) : pyTrim k l ≠ [] := by
  by_cases h1 : k < l.length
  · by_cases h0 : k = 0
    · simpa [pyTrim, pyTailSlice, h1, h0] using h
    · simp only [pyTrim, pyTailSlice, if_pos h1, if_neg h0]
      intro hnil
      rw [List.drop_eq_nil_iff] at hnil
      omega
  · simpa [pyTrim, h1] using h

theorem summarize_snd_last (cfg : ConvConfig) (cid : String) (llm : Option LlmFunc)
    (sm : List (String × String)) (g0 : List Turn) (t : Turn)
    (hpr : 1 ≤ cfg.preserve_recent) (hpe : cfg.preserve_early < thresholdTurns cfg) :
    ∃ g, (summarize_conversation cfg cid (g0 ++ [t]) llm sm).1.2 = g ++ [t] := by
  by_cases hs : should_summarize cfg (g0 ++ [t]).length = true
  · have hlen : thresholdTurns cfg ≤ g0.length + 1 := by
      have := hs
      simp only [should_summarize, List.length_append, List.length_cons,
        List.length_nil, decide_eq_true_eq] at this
      omega
    have hrs : Nat.max (g0.length + 1 - cfg.preserve_recent)
        cfg.preserve_early ≤ g0.length := by
      apply Nat.max_le.mpr
      constructor <;> omega
    have hs2 : should_summarize cfg (g0.length + 1) = true := by
      simpa [List.length_append] using hs
    refine ⟨g0.drop (Nat.max (g0.length + 1 - cfg.preserve_recent)
      cfg.preserve_early), ?_⟩
    simp [summarize_conversation, hs2]
    exact List.drop_append_of_le_length hrs
  · refine ⟨g0, ?_⟩
    have hs' : ¬ should_summarize cfg (g0.length + 1) = true := by
      simpa [List.length_append] using hs
    simp [summarize_conversation, hs']

theorem ctxOf_ends_with_last (cfg : ConvConfig) (cid : String) (g0 : List Turn)
    (t : Turn) (hpr : 1 ≤ cfg.preserve_recent)
    (hpe : cfg.preserve_early < thresholdTurns cfg) :
    ∃ p, ctxOf cfg cid (g0 ++ [t]) =
      p ++ (("User: " ++ t.user_message) ++ "\n\n" ++ ("Agent: " ++ t.agent_response)) := by
  unfold ctxOf buildContext
  have hfmt : ∃ g,
      (if (cfg.enable_summarization && should_summarize cfg (g0 ++ [t]).length) = true
       then summarize_conversation cfg cid (g0 ++ [t]) none []
       else (("", g0 ++ [t]), [])).1.2 = g ++ [t] := by
    by_cases hc : (cfg.enable_summarization && should_summarize cfg (g0 ++ [t]).length) = true
    · rw [if_pos hc]
      exact summarize_snd_last cfg cid none [] g0 t hpr hpe
    · exact ⟨g0, by rw [if_neg hc]⟩
  obtain ⟨g, hg⟩ := hfmt
  simp only []
  rw [hg, turnLines_append, ← List.append_assoc]
  obtain ⟨p, hp⟩ := joinSep_append_pair "\n\n" ("User: " ++ t.user_message)
    ("Agent: " ++ t.agent_response)
    ((if (if (cfg.enable_summarization && should_summarize cfg (g0 ++ [t]).length) = true
          then summarize_conversation cfg cid (g0 ++ [t]) none []
          else (("", g0 ++ [t]), [])).1.1 ≠ "" then
        [(if (cfg.enable_summarization && should_summarize cfg (g0 ++ [t]).length) = true
          then summarize_conversation cfg cid (g0 ++ [t]) none []
          else (("", g0 ++ [t]), [])).1.1] else []) ++ turnLines g)
  exact ⟨p, hp⟩

theorem get_context_hit (cfg : ConvConfig) (s : ConvState) (cid : String)
    (e : CachedContext) (hcache : lookupA s.context_cache cid = some e)
    (hvalid : e.is_valid (get_conversation_count s cid) cfg.cache_ttl s.now = true) :
    get_context_string cfg s cid =
      (e.context_string, { s with cache_hits := s.cache_hits + 1 }) := by
  simp [get_context_string, hcache, hvalid]

theorem get_context_miss_mem (cfg : ConvConfig) (s : ConvState) (cid : String)
    (ts : List Turn) (hconv : lookupA s.conversations cid = some ts) (hts : ts ≠ [])
    (hcache : lookupA s.context_cache cid = none) :
    get_context_string cfg s cid =
      (ctxOf cfg cid ts,
       { s with cache_misses := s.cache_misses + 1,
                summaries := (buildContext cfg cid ts s.summaries).2,
                context_cache := insertA s.context_cache cid
                  { context_string := ctxOf cfg cid ts, turn_count := ts.length,
                    cached_at := s.now } }) := by
  simp [get_context_string, getContextMiss, get_conversation_history,
        get_conversation_count, hconv, hcache, hts, buildContext_fst]

theorem add_turn_mem_state (cfg : ConvConfig) (s : ConvState) (cid u a : String)
    (tl : List String) (ts : List Turn)
    (h : lookupA s.conversations cid = some ts) :
    (add_turn cfg s cid u a tl).2 =
      { s with
          conversations := insertA s.conversations cid
            (pyTrim cfg.max_length (ts ++ [⟨u, a, s.now, tl⟩])),
          context_cache := eraseA s.context_cache cid,
          store :=
            if cfg.enable_persistence then
              insertA s.store cid (pyTrim cfg.max_length (ts ++ [⟨u, a, s.now, tl⟩]))
            else s.store } := by
  simp [add_turn, h, pyTrim]

/-- The coherency property at configuration `cfg`, state `s`,
conversation `cid`, with the second call `d` clock units after the
first: the two calls return byte-identical strings, the first is a miss
and the second a hit; and after any intervening append the next call is
a miss whose string ends with the new turn's `User:`/`Agent:` text. -/
def CacheCoherency (cfg : ConvConfig) (s : ConvState) (cid : String) (d : Nat) : Prop :=
  let r1 := get_context_string cfg s cid
  let s1 := { r1.2 with now := r1.2.now + d }
  let r2 := get_context_string cfg s1 cid
  r2.1 = r1.1 ∧
  r2.2.cache_hits = r1.2.cache_hits + 1 ∧
  r2.2.cache_misses = r1.2.cache_misses ∧
  r1.2.cache_misses = s.cache_misses + 1 ∧
  r1.2.cache_hits = s.cache_hits ∧
  ∀ u a tl,
    ((get_context_string cfg (add_turn cfg r2.2 cid u a tl).2 cid).2.cache_misses =
       (add_turn cfg r2.2 cid u a tl).2.cache_misses + 1 ∧
     (get_context_string cfg (add_turn cfg r2.2 cid u a tl).2 cid).2.cache_hits =
       (add_turn cfg r2.2 cid u a tl).2.cache_hits ∧
     ∃ p, (get_context_string cfg (add_turn cfg r2.2 cid u a tl).2 cid).1 =
       p ++ (("User: " ++ u) ++ "\n\n" ++ ("Agent: " ++ a)))

/-- C4 counterexample: for an empty conversation the claim fails — both
`getContext` calls return `""` but the second is again a miss (no cache
entry is stored for an empty conversation), so the hit counter is not
incremented. -/
theorem cache_coherency_counterexample :
    ¬ ((get_context_string defaultConfig
          (get_context_string defaultConfig initialState "c").2 "c").2.cache_hits =
        (get_context_string defaultConfig initialState "c").2.cache_hits + 1) := by
  decide

/-- C4 amended (restricted to a conversation whose turn log is resident
in memory and non-empty, with no pre-existing cache entry — an empty
conversation is a counterexample to the unrestricted claim since its
`getContext` caches nothing and always misses; `preserve_recent ≥ 1`
and `preserve_early` below the summarization trigger, as in the default
configuration, ensure the appended turn stays verbatim): two
`getContext` calls with no intervening append, the second within the
TTL of the first, return byte-identical strings, with the first a miss
and the second a hit; any intervening append makes the next call a miss
whose returned string contains the new turn's text. -/
theorem context_cache_coherency (cfg : ConvConfig) (s : ConvState) (cid : String)
    (ts : List Turn) (d : Nat)
    (hconv : lookupA s.conversations cid = some ts) (hts : ts ≠ [])
    (hcache : lookupA s.context_cache cid = none)
    (hd : d < cfg.cache_ttl)
    (hpr : 1 ≤ cfg.preserve_recent)
    (hpe : cfg.preserve_early < thresholdTurns cfg) :
    CacheCoherency cfg s cid d := by
  unfold CacheCoherency
  have h1 := get_context_miss_mem cfg s cid ts hconv hts hcache
  set e : CachedContext :=
    { context_string := ctxOf cfg cid ts, turn_count := ts.length,
      cached_at := s.now } with he
  simp only [h1]
  set s1 : ConvState :=
    { s with cache_misses := s.cache_misses + 1,
             summaries := (buildContext cfg cid ts s.summaries).2,
             context_cache := insertA s.context_cache cid e,
             now := s.now + d } with hs1
  have hcache1 : lookupA s1.context_cache cid = some e :=
    lookupA_insertA_self _ _ _
  have hvalid : e.is_valid (get_conversation_count s1 cid) cfg.cache_ttl s1.now = true := by
    have hcount : get_conversation_count s1 cid = ts.length := by
      simp [get_conversation_count, hconv]
    rw [hcount]
    simp [CachedContext.is_valid, he]
    omega
  have h2 := get_context_hit cfg s1 cid e hcache1 hvalid
  refine ⟨?_, ?_, ?_, ?_, ?_, ?_⟩
  · rw [h2]
  · rw [h2]
  · rw [h2]
  · trivial
  · trivial
  · intro u a tl
    set s2 : ConvState := { s1 with cache_hits := s1.cache_hits + 1 } with hs2
    have hr2 : (get_context_string cfg s1 cid).2 = s2 := by rw [h2]
    have hconv2 : lookupA s2.conversations cid = some ts := hconv
    have hadd := add_turn_mem_state cfg s2 cid u a tl ts hconv2
    set t : Turn := { user_message := u, agent_response := a,
                      timestamp := s2.now, mcp_tools_used := tl } with ht
    set trimmed := pyTrim cfg.max_length (ts ++ [t]) with htr
    have hconv3 : lookupA (add_turn cfg s2 cid u a tl).2.conversations cid =
        some trimmed := by
      rw [hadd]
      exact lookupA_insertA_self _ _ _
    have hts3 : trimmed ≠ [] := pyTrim_ne_nil _ _ (by simp)
    have hcache3 : lookupA (add_turn cfg s2 cid u a tl).2.context_cache cid = none := by
      rw [hadd]
      exact lookupA_eraseA_self _ _
    have h3 := get_context_miss_mem cfg (add_turn cfg s2 cid u a tl).2 cid trimmed
      hconv3 hts3 hcache3
    rw [hr2]
    refine ⟨?_, ?_, ?_⟩
    · rw [h3]
    · rw [h3]
    · rw [h3]
      obtain ⟨g, hg⟩ := pyTrim_append_last cfg.max_length ts t
      rw [← htr] at hg
      rw [hg]
      exact ctxOf_ends_with_last cfg cid g t hpr hpe

/-- A one-turn in-memory conversation for the witness. -/
def exCoherencyState : ConvState :=
  { initialState with
      conversations := [("c", [⟨"hello", "hi there", 0, []⟩])],
      store := [("c", [⟨"hello", "hi there", 0, []⟩])] }

theorem context_cache_coherency_witness :
    (lookupA exCoherencyState.conversations "c" = some [⟨"hello", "hi there", 0, []⟩] ∧
     ([⟨"hello", "hi there", 0, []⟩] : List Turn) ≠ [] ∧
     lookupA exCoherencyState.context_cache "c" = none ∧
     10 < defaultConfig.cache_ttl ∧
     1 ≤ defaultConfig.preserve_recent ∧
     defaultConfig.preserve_early < thresholdTurns defaultConfig) ∧
    CacheCoherency defaultConfig exCoherencyState "c" 10 :=
  ⟨⟨rfl, by decide, rfl, by decide, by decide, by decide⟩,
   context_cache_coherency defaultConfig exCoherencyState "c"
     [⟨"hello", "hi there", 0, []⟩] 10 rfl (by decide) rfl (by decide) (by decide)
     (by decide)⟩

/-! ### Claim C8: workflow reference memory (LRU)

`src/ai-agent/src/core/workflow_memory.py`.  `self._references` is a
dict (association list) and `self._access_order` a list of ids, oldest
first. -/

/-- `WorkflowReference` (workflow_memory.py lines 15-23); `tags` is a
Python set, modelled as a list (no claim inspects its order). -/
structure WorkflowReference where
  spec_id : String
  name : String
  action : String
  timestamp : Nat
  aliases : List String
  tags : List String
deriving DecidableEq, Repr

/-- `WorkflowMemory._generate_aliases` (lines 254-301): lower-cased full
name, the individual words when multi-word, abbreviation substitutions,
then `list(set(filter(None, ...)))` (the Python set iteration order is
unspecified; we keep first occurrences). -/
def generate_aliases (name : String) : List String :=
  let nl := name.toLower
  let words := (nl.splitOn " ").filter (fun w => w ≠ "")
  let base := [nl] ++ (if 1 < words.length then words else [])
  let abbreviations : List (String × String) :=
    [("approval", "appr"), ("document", "doc"), ("management", "mgmt"),
     ("request", "req"), ("process", "proc"), ("workflow", "wf"),
     ("system", "sys"), ("application", "app")]
  let withAbbr := base ++ abbreviations.filterMap
    (fun p => if containsSub p.1 nl then some (nl.replace p.1 p.2) else none)
  dedupKeepFirst [] (withAbbr.filter (fun a => a ≠ ""))

structure WorkflowMemory where
  max_references : Nat
  references : List (String × WorkflowReference)
  access_order : List String
deriving Repr

/-- `WorkflowMemory.__init__` (lines 37-46); default `max_references = 50`. -/
def WorkflowMemory.empty (max_references : Nat) : WorkflowMemory :=
  { max_references := max_references, references := [], access_order := [] }

/-- Python `list.remove`: drop the first occurrence (the callers guard
with an `in` check, so the element is present). -/
def eraseFirst : List String → String → List String
  | [], _ => []
  | x :: xs, k => if x = k then xs else x :: eraseFirst xs k

/-- The LRU-refresh sequence shared by `add_workflow` (lines 86-88) and
`get_workflow` (lines 112-114): remove the id if present, then append
it at the most-recent end. -/
def touchOrder (order : List String) (k : String) : List String :=
  (if k ∈ order then eraseFirst order k else order) ++ [k]

/-- The storage/LRU/trim part of `add_workflow` (lines 83-94), after the
reference has been built: store it, refresh the LRU position, and when
the reference count exceeds `max_references` pop the least-recently-
touched id and delete its entry.  The `access_order = []` case of the
trim is unreachable (Python's `pop(0)` would raise) and returns the
untrimmed state. -/
def addCore (m : WorkflowMemory) (spec_id : String) (ref : WorkflowReference) :
    WorkflowMemory :=
  let refs1 := insertA m.references spec_id ref
  let order1 := touchOrder m.access_order spec_id
  if m.max_references < refs1.length then
    match order1 with
    | [] => { m with references := refs1, access_order := [] }
    | oldest :: rest =>
      { m with
          references :=
            if (lookupA refs1 oldest).isSome then eraseA refs1 oldest else refs1,
          access_order := rest }
  else { m with references := refs1, access_order := order1 }

/-- `WorkflowMemory.add_workflow` (lines 48-94): build the reference
(generating aliases when none are given), then store/refresh/trim via
`addCore`. -/
def add_workflow (m : WorkflowMemory) (spec_id name action : String) (now : Nat)
    (aliases : Option (List String)) (tags : Option (List String)) : WorkflowMemory :=
  let aliases' := match aliases with
    | some a => a
    | none => generate_aliases name
  let tags' := tags.getD []
  let ref : WorkflowReference :=
    { spec_id := spec_id, name := name, action := action, timestamp := now,
      aliases := aliases', tags := tags' }
  addCore m spec_id ref

/-- `WorkflowMemory.get_workflow` (lines 96-116): `None` when absent;
otherwise refresh the LRU position and return the reference.  The
second component is the memory after the call. -/
def get_workflow (m : WorkflowMemory) (spec_id : String) :
    Option WorkflowReference × WorkflowMemory :=
  match lookupA m.references spec_id with
  | none => (none, m)
  | some ref =>
    (some ref, { m with access_order := touchOrder m.access_order spec_id })

/-- One operation on a workflow memory: `track` is
`ConversationManager.track_workflow` → `add_workflow`, `fetch` is
`get_workflow`. -/
inductive WmOp where
  | track (spec_id name action : String) (now : Nat)
      (aliases : Option (List String)) (tags : Option (List String))
  | fetch (spec_id : String)

def runWmOp (m : WorkflowMemory) : WmOp → WorkflowMemory
  | .track sid n act now al tg => add_workflow m sid n act now al tg
  | .fetch sid => (get_workflow m sid).2

def runWmOps (m : WorkflowMemory) (ops : List WmOp) : WorkflowMemory :=
  ops.foldl runWmOp m

/-- The key list of an association list (the dict's key set, in
insertion order). -/
def keysA {α : Type} : List (String × α) → List String
  | [] => []
  | p :: rest => p.1 :: keysA rest

/-- Well-formedness of a workflow memory: the access-order list has no
duplicates and lists exactly the stored ids, and the store is within
capacity.  Holds for the empty memory and is preserved by every
operation. -/
abbrev WmWF (m : WorkflowMemory) : Prop :=
  m.access_order.Nodup ∧
  (keysA m.references).Nodup ∧
  (∀ k ∈ m.access_order, k ∈ keysA m.references) ∧
  (∀ k ∈ keysA m.references, k ∈ m.access_order) ∧
  m.references.length = m.access_order.length ∧
  m.references.length ≤ m.max_references

/-! Association-list key lemmas used by the LRU proofs. -/

theorem keysA_length {α : Type} (l : List (String × α)) :
    (keysA l).length = l.length := by
  induction l with
  | nil => rfl
  | cons p rest ih => simp [keysA, ih]

theorem lookupA_isSome_iff {α : Type} (l : List (String × α)) (k : String) :
    (lookupA l k).isSome = true ↔ k ∈ keysA l := by
  induction l with
  | nil => simp [lookupA, keysA]
  | cons p rest ih =>
    by_cases hp : p.1 = k
    · simp [lookupA, keysA, hp]
    · have hne : ¬ k = p.1 := fun hh => hp hh.symm
      simp [lookupA, keysA, hp, hne, ih]

theorem mem_keys_insertA {α : Type} (l : List (String × α)) (k k' : String) (v : α) :
    k' ∈ keysA (insertA l k v) ↔ k' ∈ keysA l ∨ k' = k := by
  induction l with
  | nil => simp [insertA, keysA]
  | cons p rest ih =>
    by_cases hp : p.1 = k
    · subst hp
      simp only [insertA, if_pos rfl, keysA, List.mem_cons]
      tauto
    · simp only [insertA, if_neg hp, keysA, List.mem_cons, ih]
      tauto

theorem keys_insertA_not_mem {α : Type} (l : List (String × α)) (k : String) (v : α)
    (h : k ∉ keysA l) : keysA (insertA l k v) = keysA l ++ [k] := by
  induction l with
  | nil => simp [insertA, keysA]
  | cons p rest ih =>
    have h2 : ¬ k = p.1 ∧ k ∉ keysA rest := by simpa [keysA] using h
    have hp : ¬ p.1 = k := fun hh => h2.1 hh.symm
    simp [insertA, hp, keysA, ih h2.2]

theorem length_insertA_mem {α : Type} (l : List (String × α)) (k : String) (v : α)
    (h : k ∈ keysA l) : (insertA l k v).length = l.length := by
  induction l with
  | nil => simp [keysA] at h
  | cons p rest ih =>
    by_cases hp : p.1 = k
    · simp [insertA, hp]
    · have hk : k ∈ keysA rest := by
        simp only [keysA] at h
        rcases List.mem_cons.mp h with h1 | h1
        · exact absurd h1.symm hp
        · exact h1
      simp [insertA, hp, ih hk]

theorem length_insertA_not_mem {α : Type} (l : List (String × α)) (k : String) (v : α)
    (h : k ∉ keysA l) : (insertA l k v).length = l.length + 1 := by
  have h1 := keys_insertA_not_mem l k v h
  have h2 := congrArg List.length h1
  simp only [keysA_length, List.length_append, List.length_cons,
    List.length_nil] at h2
  omega

theorem nodup_keys_insertA {α : Type} (l : List (String × α)) (k : String) (v : α)
    (h : (keysA l).Nodup) : (keysA (insertA l k v)).Nodup := by
  induction l with
  | nil => simp [insertA, keysA]
  | cons p rest ih =>
    have hnd2 : p.1 ∉ keysA rest ∧ (keysA rest).Nodup := by
      simpa [keysA] using h
    by_cases hp : p.1 = k
    · subst hp
      simpa [insertA, keysA] using h
    · simp only [insertA, if_neg hp, keysA]
      rw [List.nodup_cons]
      refine ⟨?_, ih hnd2.2⟩
      intro hc
      rcases (mem_keys_insertA rest k p.1 v).mp hc with h1 | h1
      · exact hnd2.1 h1
      · exact hp h1

theorem mem_keys_eraseA {α : Type} (l : List (String × α)) (k k' : String) :
    k' ∈ keysA (eraseA l k) ↔ k' ∈ keysA l ∧ k' ≠ k := by
  induction l with
  | nil => simp [eraseA, keysA]
  | cons p rest ih =>
    by_cases hp : p.1 = k
    · subst hp
      have hstep : eraseA (p :: rest) p.1 = eraseA rest p.1 := by
        simp [eraseA]
      rw [hstep, ih]
      simp only [keysA, List.mem_cons]
      constructor
      · rintro ⟨h1, h2⟩
        exact ⟨.inr h1, h2⟩
      · rintro ⟨h1 | h1, h2⟩
        · exact absurd h1 h2
        · exact ⟨h1, h2⟩
    · have hstep : eraseA (p :: rest) k = (p.1, p.2) :: eraseA rest k := by
        simp [eraseA, hp]
      rw [hstep]
      simp only [keysA, List.mem_cons, ih]
      constructor
      · rintro (h1 | ⟨h1, h2⟩)
        · exact ⟨.inl h1, fun hh => hp (h1 ▸ hh)⟩
        · exact ⟨.inr h1, h2⟩
      · rintro ⟨h1 | h1, h2⟩
        · exact .inl h1
        · exact .inr ⟨h1, h2⟩

theorem eraseA_not_mem {α : Type} (l : List (String × α)) (k : String)
    (h : k ∉ keysA l) : eraseA l k = l := by
  induction l with
  | nil => rfl
  | cons p rest ih =>
    have h2 : ¬ k = p.1 ∧ k ∉ keysA rest := by simpa [keysA] using h
    have hp : ¬ p.1 = k := fun hh => h2.1 hh.symm
    simp [eraseA, hp, ih h2.2]

theorem length_eraseA_nodup {α : Type} (l : List (String × α)) (k : String)
    (hnd : (keysA l).Nodup) (h : k ∈ keysA l) :
    (eraseA l k).length + 1 = l.length := by
  induction l with
  | nil => simp [keysA] at h
  | cons p rest ih =>
    have hnd2 : p.1 ∉ keysA rest ∧ (keysA rest).Nodup := by
      simpa [keysA] using hnd
    by_cases hp : p.1 = k
    · subst hp
      have he : eraseA rest p.1 = rest := eraseA_not_mem rest p.1 hnd2.1
      simp [eraseA, he]
    · have hk : k ∈ keysA rest := by
        simp only [keysA] at h
        rcases List.mem_cons.mp h with h1 | h1
        · exact absurd h1.symm hp
        · exact h1
      have hih := ih hnd2.2 hk
      have hstep : eraseA (p :: rest) k = (p.1, p.2) :: eraseA rest k := by
        simp [eraseA, hp]
      rw [hstep]
      simp only [List.length_cons]
      omega

theorem nodup_keys_eraseA {α : Type} (l : List (String × α)) (k : String)
    (hnd : (keysA l).Nodup) : (keysA (eraseA l k)).Nodup := by
  induction l with
  | nil => simp [eraseA, keysA]
  | cons p rest ih =>
    have hnd2 : p.1 ∉ keysA rest ∧ (keysA rest).Nodup := by
      simpa [keysA] using hnd
    by_cases hp : p.1 = k
    · have hstep : eraseA (p :: rest) k = eraseA rest k := by
        simp [eraseA, hp]
      rw [hstep]
      exact ih hnd2.2
    · have hstep : eraseA (p :: rest) k = (p.1, p.2) :: eraseA rest k := by
        simp [eraseA, hp]
      rw [hstep]
      simp only [keysA]
      rw [List.nodup_cons]
      refine ⟨?_, ih hnd2.2⟩
      intro hc
      exact hnd2.1 ((mem_keys_eraseA rest k p.1).mp hc).1

/-! `eraseFirst` / `touchOrder` lemmas. -/

theorem mem_of_mem_eraseFirst (l : List String) (k k' : String)
    (h : k' ∈ eraseFirst l k) : k' ∈ l := by
  induction l with
  | nil => simp [eraseFirst] at h
  | cons x xs ih =>
    by_cases hx : x = k
    · rw [eraseFirst, if_pos hx] at h
      exact .tail _ h
    · rw [eraseFirst, if_neg hx] at h
      rcases List.mem_cons.mp h with h1 | h1
      · exact h1 ▸ .head _
      · exact .tail _ (ih h1)

theorem nodup_eraseFirst (l : List String) (k : String) (hnd : l.Nodup) :
    (eraseFirst l k).Nodup := by
  induction l with
  | nil => simp [eraseFirst]
  | cons x xs ih =>
    have hnd2 := List.nodup_cons.mp hnd
    by_cases hx : x = k
    · rw [eraseFirst, if_pos hx]
      exact hnd2.2
    · rw [eraseFirst, if_neg hx]
      refine List.nodup_cons.mpr ⟨?_, ih hnd2.2⟩
      intro hc
      exact hnd2.1 (mem_of_mem_eraseFirst xs k x hc)

theorem mem_eraseFirst_nodup (l : List String) (k k' : String) (hnd : l.Nodup) :
    k' ∈ eraseFirst l k ↔ k' ∈ l ∧ k' ≠ k := by
  induction l with
  | nil => simp [eraseFirst]
  | cons x xs ih =>
    have hnd2 := List.nodup_cons.mp hnd
    by_cases hx : x = k
    · subst hx
      rw [eraseFirst, if_pos rfl]
      constructor
      · intro h
        exact ⟨.tail _ h, fun he => hnd2.1 (he ▸ h)⟩
      · rintro ⟨h1, h2⟩
        rcases List.mem_cons.mp h1 with h3 | h3
        · exact absurd h3 h2
        · exact h3
    · rw [eraseFirst, if_neg hx]
      constructor
      · intro h
        rcases List.mem_cons.mp h with h1 | h1
        · exact ⟨h1 ▸ .head _, h1 ▸ hx⟩
        · have := (ih hnd2.2).mp h1
          exact ⟨.tail _ this.1, this.2⟩
      · rintro ⟨h1, h2⟩
        rcases List.mem_cons.mp h1 with h3 | h3
        · exact h3 ▸ .head _
        · exact .tail _ ((ih hnd2.2).mpr ⟨h3, h2⟩)

theorem length_eraseFirst_mem (l : List String) (k : String) (h : k ∈ l) :
    (eraseFirst l k).length + 1 = l.length := by
  induction l with
  | nil => simp at h
  | cons x xs ih =>
    by_cases hx : x = k
    · simp [eraseFirst, hx]
    · have hk : k ∈ xs := by
        rcases List.mem_cons.mp h with h1 | h1
        · exact absurd h1.symm hx
        · exact h1
      simp [eraseFirst, hx, ih hk]

theorem nodup_touchOrder (l : List String) (k : String) (hnd : l.Nodup) :
    (touchOrder l k).Nodup := by
  unfold touchOrder
  by_cases hm : k ∈ l
  · rw [if_pos hm]
    rw [List.nodup_append]
    refine ⟨nodup_eraseFirst l k hnd, List.nodup_singleton k, ?_⟩
    intro a ha hb
    rw [List.mem_singleton] at hb
    exact ((mem_eraseFirst_nodup l k a hnd).mp ha).2 hb
  · rw [if_neg hm]
    rw [List.nodup_append]
    refine ⟨hnd, List.nodup_singleton k, ?_⟩
    intro a ha hb
    rw [List.mem_singleton] at hb
    exact hm (hb ▸ ha)

theorem mem_touchOrder (l : List String) (k k' : String) (hnd : l.Nodup) :
    k' ∈ touchOrder l k ↔ k' ∈ l ∨ k' = k := by
  unfold touchOrder
  by_cases hm : k ∈ l
  · rw [if_pos hm]
    simp only [List.mem_append, List.mem_singleton, mem_eraseFirst_nodup l k k' hnd]
    constructor
    · rintro (⟨h1, _⟩ | h1)
      · exact .inl h1
      · exact .inr h1
    · rintro (h1 | h1)
      · by_cases he : k' = k
        · exact .inr he
        · exact .inl ⟨h1, he⟩
      · exact .inr h1
  · rw [if_neg hm]
    simp

theorem length_touchOrder_mem (l : List String) (k : String) (h : k ∈ l) :
    (touchOrder l k).length = l.length := by
  unfold touchOrder
  rw [if_pos h, List.length_append]
  have := length_eraseFirst_mem l k h
  simp only [List.length_cons, List.length_nil]
  omega

theorem length_touchOrder_not_mem (l : List String) (k : String) (h : k ∉ l) :
    (touchOrder l k).length = l.length + 1 := by
  unfold touchOrder
  rw [if_neg h, List.length_append]
  simp

theorem touchOrder_not_mem (l : List String) (k : String) (h : k ∉ l) :
    touchOrder l k = l ++ [k] := by
  unfold touchOrder
  rw [if_neg h]

/-! C8 invariant preservation. -/

theorem touchOrder_ne_nil (l : List String) (k : String) : touchOrder l k ≠ [] := by
  unfold touchOrder
  intro hc
  rcases List.append_eq_nil.mp hc with ⟨_, h2⟩
  exact List.cons_ne_nil _ _ h2

theorem wmWF_empty (max_references : Nat) : WmWF (WorkflowMemory.empty max_references) := by
  refine ⟨List.nodup_nil, List.nodup_nil, ?_, ?_, rfl, Nat.zero_le _⟩ <;>
    intro k hk <;> simp [WorkflowMemory.empty, keysA] at hk

theorem wmWF_addCore (m : WorkflowMemory) (sid : String) (ref : WorkflowReference)
    (hWF : WmWF m) : WmWF (addCore m sid ref) := by
  obtain ⟨hndo, hndk, hok, hko, hlen, hmax⟩ := hWF
  have hndo1 : (touchOrder m.access_order sid).Nodup := nodup_touchOrder _ _ hndo
  have hndk1 : (keysA (insertA m.references sid ref)).Nodup :=
    nodup_keys_insertA _ _ _ hndk
  have hmem1 : ∀ k ∈ touchOrder m.access_order sid,
      k ∈ keysA (insertA m.references sid ref) := by
    intro k hk
    rcases (mem_touchOrder _ _ _ hndo).mp hk with h1 | h1
    · exact (mem_keys_insertA _ _ _ _).mpr (.inl (hok k h1))
    · exact (mem_keys_insertA _ _ _ _).mpr (.inr h1)
  have hmem2 : ∀ k ∈ keysA (insertA m.references sid ref),
      k ∈ touchOrder m.access_order sid := by
    intro k hk
    rcases (mem_keys_insertA _ _ _ _).mp hk with h1 | h1
    · exact (mem_touchOrder _ _ _ hndo).mpr (.inl (hko k h1))
    · exact (mem_touchOrder _ _ _ hndo).mpr (.inr h1)
  have hub : (insertA m.references sid ref).length ≤ m.references.length + 1 := by
    by_cases hmem : sid ∈ keysA m.references
    · rw [length_insertA_mem _ _ _ hmem]
      omega
    · rw [length_insertA_not_mem _ _ _ hmem]
  have hlen1 : (insertA m.references sid ref).length =
      (touchOrder m.access_order sid).length := by
    by_cases hmem : sid ∈ keysA m.references
    · rw [length_insertA_mem _ _ _ hmem,
        length_touchOrder_mem _ _ (hko sid hmem), hlen]
    · have hmo : sid ∉ m.access_order := fun hin => hmem (hok sid hin)
      rw [length_insertA_not_mem _ _ _ hmem,
        length_touchOrder_not_mem _ _ hmo, hlen]
  unfold addCore
  by_cases htrim : m.max_references < (insertA m.references sid ref).length
  · rw [if_pos htrim]
    cases horder : touchOrder m.access_order sid with
    | nil => exact absurd horder (touchOrder_ne_nil _ _)
    | cons oldest rest =>
      have holdest1 : oldest ∈ keysA (insertA m.references sid ref) :=
        hmem1 oldest (horder ▸ List.mem_cons_self _ _)
      have hsome : (lookupA (insertA m.references sid ref) oldest).isSome = true :=
        (lookupA_isSome_iff _ _).mpr holdest1
      dsimp only
      rw [if_pos hsome]
      have hnodup_or : (oldest :: rest).Nodup := horder ▸ hndo1
      have hnodup_or2 := List.nodup_cons.mp hnodup_or
      have hlen_er := length_eraseA_nodup (insertA m.references sid ref) oldest
        hndk1 holdest1
      have hlen_or : (insertA m.references sid ref).length = rest.length + 1 := by
        rw [hlen1, horder, List.length_cons]
      refine ⟨hnodup_or2.2, nodup_keys_eraseA _ _ hndk1, ?_, ?_, ?_, ?_⟩
      · intro k hk
        have hkord : k ∈ touchOrder m.access_order sid :=
          horder ▸ List.mem_cons_of_mem _ hk
        have hne : k ≠ oldest := fun he => hnodup_or2.1 (he ▸ hk)
        exact (mem_keys_eraseA _ _ _).mpr ⟨hmem1 k hkord, hne⟩
      · intro k hk
        obtain ⟨hk1, hk2⟩ := (mem_keys_eraseA _ _ _).mp hk
        have hk3 : k ∈ oldest :: rest := horder ▸ hmem2 k hk1
        rcases List.mem_cons.mp hk3 with h1 | h1
        · exact absurd h1 hk2
        · exact h1
      · dsimp only
        omega
      · dsimp only
        omega
  · rw [if_neg htrim]
    exact ⟨hndo1, hndk1, hmem1, hmem2, hlen1, by dsimp only; omega⟩

theorem wmWF_get (m : WorkflowMemory) (sid : String) (hWF : WmWF m) :
    WmWF (get_workflow m sid).2 := by
  obtain ⟨hndo, hndk, hok, hko, hlen, hmax⟩ := hWF
  unfold get_workflow
  cases hl : lookupA m.references sid with
  | none => exact ⟨hndo, hndk, hok, hko, hlen, hmax⟩
  | some ref =>
    have hmem : sid ∈ keysA m.references := by
      refine (lookupA_isSome_iff _ _).mp ?_
      rw [hl]
      rfl
    have hmo : sid ∈ m.access_order := hko sid hmem
    refine ⟨nodup_touchOrder _ _ hndo, hndk, ?_, ?_, ?_, hmax⟩
    · intro k hk
      rcases (mem_touchOrder _ _ _ hndo).mp hk with h1 | h1
      · exact hok k h1
      · exact h1 ▸ hmem
    · intro k hk
      exact (mem_touchOrder _ _ _ hndo).mpr (.inl (hko k hk))
    · rw [hlen, length_touchOrder_mem _ _ hmo]

theorem max_references_runWmOp (m : WorkflowMemory) (op : WmOp) :
    (runWmOp m op).max_references = m.max_references := by
  cases op with
  | track sid n act now al tg =>
    show (addCore m sid _).max_references = m.max_references
    unfold addCore
    dsimp only
    split
    · split <;> rfl
    · rfl
  | fetch sid =>
    show ((get_workflow m sid).2).max_references = m.max_references
    unfold get_workflow
    cases lookupA m.references sid <;> rfl

theorem max_references_runWmOps (ops : List WmOp) :
    ∀ m : WorkflowMemory, (runWmOps m ops).max_references = m.max_references := by
  induction ops with
  | nil => intro m; rfl
  | cons op rest ih =>
    intro m
    exact (ih (runWmOp m op)).trans (max_references_runWmOp m op)

theorem wmWF_runWmOp (m : WorkflowMemory) (op : WmOp) (h : WmWF m) :
    WmWF (runWmOp m op) := by
  cases op with
  | track sid n act now al tg => exact wmWF_addCore m sid _ h
  | fetch sid => exact wmWF_get m sid h

theorem wmWF_runWmOps (ops : List WmOp) :
    ∀ m : WorkflowMemory, WmWF m → WmWF (runWmOps m ops) := by
  induction ops with
  | nil => intro m h; exact h
  | cons op rest ih => intro m h; exact ih _ (wmWF_runWmOp m op h)

/-- Eviction behavior of `addCore` on a fresh id at full capacity: the
head of the access order (the least-recently-touched id) is evicted,
the new id is stored, every other entry is untouched, the count stays
at capacity, and the new id moves to the most-recent end. -/
theorem addCore_evicts (m : WorkflowMemory) (sid : String) (ref : WorkflowReference)
    (oldest : String) (rest : List String)
    (hWF : WmWF m) (hfull : m.references.length = m.max_references)
    (hfresh : lookupA m.references sid = none)
    (horder : m.access_order = oldest :: rest) :
    lookupA (addCore m sid ref).references oldest = none ∧
    lookupA (addCore m sid ref).references sid = some ref ∧
    (∀ j, j ≠ oldest → j ≠ sid →
      lookupA (addCore m sid ref).references j = lookupA m.references j) ∧
    (addCore m sid ref).references.length = m.max_references ∧
    (addCore m sid ref).access_order = rest ++ [sid] := by
  obtain ⟨hndo, hndk, hok, hko, hlen, hmax⟩ := hWF
  have hmem : sid ∉ keysA m.references := by
    intro hc
    have h1 := (lookupA_isSome_iff m.references sid).mpr hc
    rw [hfresh] at h1
    simp at h1
  have hmo : sid ∉ m.access_order := fun hin => hmem (hok sid hin)
  have hlen1 : (insertA m.references sid ref).length = m.max_references + 1 := by
    rw [length_insertA_not_mem _ _ _ hmem, hfull]
  have htrim : m.max_references < (insertA m.references sid ref).length := by omega
  have horder1 : touchOrder m.access_order sid = oldest :: (rest ++ [sid]) := by
    rw [touchOrder_not_mem _ _ hmo, horder]
    rfl
  have holdmem : oldest ∈ keysA m.references :=
    hok oldest (horder ▸ List.mem_cons_self _ _)
  have hold_ne : oldest ≠ sid := fun he => hmem (he ▸ holdmem)
  have holdest1 : oldest ∈ keysA (insertA m.references sid ref) :=
    (mem_keys_insertA _ _ _ _).mpr (.inl holdmem)
  have hsome : (lookupA (insertA m.references sid ref) oldest).isSome = true :=
    (lookupA_isSome_iff _ _).mpr holdest1
  have haddc : addCore m sid ref =
      { m with references := eraseA (insertA m.references sid ref) oldest,
               access_order := rest ++ [sid] } := by
    unfold addCore
    rw [if_pos htrim, horder1]
    dsimp only
    rw [if_pos hsome]
  rw [haddc]
  refine ⟨lookupA_eraseA_self _ _, ?_, ?_, ?_, rfl⟩
  · rw [lookupA_eraseA_ne _ _ _ hold_ne]
    exact lookupA_insertA_self _ _ _
  · intro j hj1 hj2
    rw [lookupA_eraseA_ne _ _ _ (fun he => hj1 he.symm)]
    exact lookupA_insertA_ne _ _ _ _ (fun he => hj2 he.symm)
  · have := length_eraseA_nodup (insertA m.references sid ref) oldest
      (nodup_keys_insertA _ _ _ hndk) holdest1
    simp only []
    omega

/-- C8: (1) starting from an empty Workflow Reference Memory with
capacity `M`, the number of retained references never exceeds `M` after
any sequence of track and get operations; (2) tracking a fresh id at
full capacity evicts exactly the least-recently-touched entry (the head
of the access order): that entry becomes absent, the new id is stored,
every other entry is untouched, and the count stays at capacity;
(3) a get on an existing id refreshes its recency, so it is no longer
the head of the access order and survives the next at-capacity insert
of a fresh id. -/
theorem lru_bound_eviction_refresh :
    (∀ (M : Nat) (ops : List WmOp),
      (runWmOps (WorkflowMemory.empty M) ops).references.length ≤ M) ∧
    (∀ (m : WorkflowMemory) (k n act : String) (now : Nat)
       (al tg : Option (List String)) (oldest : String) (rest : List String),
      WmWF m → m.references.length = m.max_references →
      lookupA m.references k = none → m.access_order = oldest :: rest →
      (lookupA (add_workflow m k n act now al tg).references oldest = none ∧
       (lookupA (add_workflow m k n act now al tg).references k).isSome = true ∧
       (∀ j, j ≠ oldest → j ≠ k →
         lookupA (add_workflow m k n act now al tg).references j =
           lookupA m.references j) ∧
       (add_workflow m k n act now al tg).references.length = m.max_references)) ∧
    (∀ (m : WorkflowMemory) (k : String) (ref : WorkflowReference)
       (k' n act : String) (now : Nat) (al tg : Option (List String)),
      WmWF m → lookupA m.references k = some ref →
      2 ≤ m.access_order.length → m.references.length = m.max_references →
      lookupA m.references k' = none →
      ((get_workflow m k).2.access_order.head? ≠ some k ∧
       lookupA (add_workflow (get_workflow m k).2 k' n act now al tg).references k =
         some ref)) := by
  refine ⟨?_, ?_, ?_⟩
  · intro M ops
    have h := (wmWF_runWmOps ops (WorkflowMemory.empty M) (wmWF_empty M)).2.2.2.2.2
    rwa [max_references_runWmOps ops (WorkflowMemory.empty M)] at h
  · intro m k n act now al tg oldest rest hWF hfull hfresh horder
    obtain ⟨h1, h2, h3, h4, _⟩ :=
      addCore_evicts m k _ oldest rest hWF hfull hfresh horder
    refine ⟨h1, ?_, h3, h4⟩
    unfold add_workflow
    rw [h2]
    rfl
  · intro m k ref k' n act now al tg hWF href hlen2 hfull hfresh
    have hWFc := hWF
    obtain ⟨hndo, hndk, hok, hko, hlen, hmax⟩ := hWFc
    have hkmem : k ∈ keysA m.references := by
      refine (lookupA_isSome_iff _ _).mp ?_
      rw [href]
      rfl
    have hkord : k ∈ m.access_order := hko k hkmem
    have hm1 : (get_workflow m k).2 =
        { m with access_order := touchOrder m.access_order k } := by
      unfold get_workflow
      rw [href]
    have htouch : touchOrder m.access_order k = eraseFirst m.access_order k ++ [k] := by
      unfold touchOrder
      rw [if_pos hkord]
    have heflen := length_eraseFirst_mem m.access_order k hkord
    cases hef : eraseFirst m.access_order k with
    | nil =>
      exfalso
      rw [hef] at heflen
      simp at heflen
      omega
    | cons h' tail' =>
      have hh'mem : h' ∈ eraseFirst m.access_order k := by
        rw [hef]
        exact List.mem_cons_self _ _
      have hh'ne : h' ≠ k := ((mem_eraseFirst_nodup _ _ _ hndo).mp hh'mem).2
      have horder1 : (get_workflow m k).2.access_order = h' :: (tail' ++ [k]) := by
        rw [hm1]
        simp only []
        rw [htouch, hef]
        rfl
      have hkne : k ≠ k' := by
        intro he
        rw [he, hfresh] at href
        exact Option.noConfusion href
      constructor
      · rw [horder1]
        simp only [List.head?_cons]
        intro hc
        exact hh'ne (Option.some.injEq _ _ ▸ hc)
      · have hWF1 : WmWF (get_workflow m k).2 := wmWF_get m k hWF
        have hfull1 : (get_workflow m k).2.references.length =
            (get_workflow m k).2.max_references := by
          rw [hm1]
          exact hfull
        have hfresh1 : lookupA (get_workflow m k).2.references k' = none := by
          rw [hm1]
          exact hfresh
        obtain ⟨_, _, h3, _, _⟩ :=
          addCore_evicts (get_workflow m k).2 k' _ h' (tail' ++ [k]) hWF1
            hfull1 hfresh1 horder1
        unfold add_workflow
        rw [h3 k (fun he => hh'ne he.symm) hkne]
        rw [hm1]
        exact href

/-- Four operations on a capacity-2 memory: track `a`, track `b`,
get `a` (refreshing its recency), then track `c` (evicting `b`). -/
def exWmOps : List WmOp :=
  [.track "a" "A" "created" 0 (some []) (some []),
   .track "b" "B" "created" 1 (some []) (some []),
   .fetch "a",
   .track "c" "C" "created" 2 (some []) (some [])]

/-- The capacity-2 memory holding `a` then `b`. -/
def exWm : WorkflowMemory :=
  runWmOps (WorkflowMemory.empty 2)
    [.track "a" "A" "created" 0 (some []) (some []),
     .track "b" "B" "created" 1 (some []) (some [])]

def exRefA : WorkflowReference :=
  { spec_id := "a", name := "A", action := "created", timestamp := 0,
    aliases := [], tags := [] }

theorem lru_bound_eviction_refresh_witness :
    ((runWmOps (WorkflowMemory.empty 2) exWmOps).references.length ≤ 2) ∧
    (WmWF exWm ∧ exWm.references.length = exWm.max_references ∧
     lookupA exWm.references "c" = none ∧ exWm.access_order = ["a", "b"] ∧
     lookupA exWm.references "a" = some exRefA ∧ 2 ≤ exWm.access_order.length) ∧
    (lookupA (add_workflow exWm "c" "C" "created" 2 (some []) (some [])).references
        "a" = none ∧
     (lookupA (add_workflow exWm "c" "C" "created" 2 (some []) (some [])).references
        "c").isSome = true ∧
     (∀ j, j ≠ "a" → j ≠ "c" →
       lookupA (add_workflow exWm "c" "C" "created" 2 (some []) (some [])).references
           j = lookupA exWm.references j) ∧
     (add_workflow exWm "c" "C" "created" 2 (some []) (some [])).references.length =
       exWm.max_references) ∧
    ((get_workflow exWm "a").2.access_order.head? ≠ some "a" ∧
     lookupA (add_workflow (get_workflow exWm "a").2 "c" "C" "created" 3
         (some []) (some [])).references "a" = some exRefA) :=
  ⟨lru_bound_eviction_refresh.1 2 exWmOps,
   ⟨by decide, by decide, by decide, by decide, by decide, by decide⟩,
   lru_bound_eviction_refresh.2.1 exWm "c" "C" "created" 2 (some []) (some [])
     "a" ["b"] (by decide) (by decide) (by decide) (by decide),
   lru_bound_eviction_refresh.2.2 exWm "a" exRefA "c" "C" "created" 3
     (some []) (some []) (by decide) (by decide) (by decide) (by decide) (by decide)⟩

end LukePoc
